import Mathlib

/-!
Verification of the express-swaggerify inference pipeline.

This file shallowly embeds the core of the repository:
  * the JSON value model and `cleanJsonSchema` (src `joiExtractor`, part_008),
  * the route extractor `extractRoutes` and `generateOperationId` (src `parser`, part_007),
  * the controller analyzer `analyzeControllerMethod` and `inferFieldType`,
  * the request-body portion of `generateSwaggerEndpoint` with `generateSmartDefaults`,
  * the declared-type resolver `typeToJsonSchema` (src `typeExtractor`).
Strings are processed as `List Char`; the JavaScript regexes used by the source
are embedded as deterministic scanners (all the character classes involved are
disjoint from their successors, so the greedy scan agrees with the regex
semantics).  JavaScript exceptions are modelled with `Except Unit`.
-/

/-- Model of a JSON value (the `any` schema objects flowing through the
generator).  Objects are association lists without duplicate keys; numbers are
integers, which suffices for every numeric field the pipeline touches. -/
inductive Json where
  | null : Json
  | bool (b : Bool) : Json
  | num (n : Int) : Json
  | str (s : String) : Json
  | arr (elems : List Json) : Json
  | obj (fields : List (String × Json)) : Json
deriving Repr

/-- Test against the JavaScript string literal `'null'` (the comparison
`t !== 'null'` / `.includes('null')` of `cleanJsonSchema`; `===` on a string
literal only ever equals that string). -/
def Json.isNullLit : Json → Bool
  | .str s => s = "null"
  | .null => false
  | .bool _ => false
  | .num _ => false
  | .arr _ => false
  | .obj _ => false

/-- Test against the JavaScript value `null` (the comparison `v !== null` /
`.includes(null)` of `cleanJsonSchema`). -/
def Json.isNullVal : Json → Bool
  | .null => true
  | .bool _ => false
  | .num _ => false
  | .str _ => false
  | .arr _ => false
  | .obj _ => false

/-- Field lookup in a JSON object (JavaScript property access `schema.key`;
`none` plays the role of `undefined`). -/
def jGet : List (String × Json) → String → Option Json
  | [], _ => none
  | (k0, v) :: rest, k => if k0 = k then some v else jGet rest k

theorem jGet_sizeOf_lt {fields : List (String × Json)} {k : String} {v : Json}
    (h : jGet fields k = some v) : sizeOf v < sizeOf fields := by
  induction fields with
  | nil => simp [jGet] at h
  | cons p rest ih =>
    obtain ⟨k0, w⟩ := p
    simp only [jGet] at h
    split at h
    · cases h; simp; omega
    · have := ih h
      simp at this ⊢
      omega

theorem jGet_opt_sizeOf_lt (fields : List (String × Json)) (k : String) :
    sizeOf (jGet fields k) < sizeOf (Json.obj fields) := by
  cases h : jGet fields k with
  | none =>
    cases fields with
    | nil => simp
    | cons p rest =>
      first
        | (simp; omega)
        | simp
  | some v =>
    have := jGet_sizeOf_lt h
    simp
    omega

/-- Handling of the `type` key by `cleanJsonSchema` (part_008 lines 157-180).
Returns the `type` value to emit, the `oneOf` list produced by the
"several non-null types plus null" branch, and whether the branch set
`nullable = true`. -/
def typeOut : Option Json → Option Json × Option Json × Bool
  | none => (none, none, false)
  | some (Json.arr ts) =>
    let hasNull := ts.any Json.isNullLit
    let nonNull := ts.filter (fun t => !(Json.isNullLit t))
    if hasNull && nonNull.length == 1 then
      (some (nonNull.headD Json.null), none, true)
    else if hasNull && decide (1 < nonNull.length) then
      (none,
       some (Json.arr (nonNull.map (fun t => Json.obj [("type", t)]) ++
             [Json.obj [("type", Json.str "null")]])),
       false)
    else
      (some (Json.arr ts), none, false)
  | some Json.null => (some Json.null, none, false)
  | some (Json.bool b) => (some (Json.bool b), none, false)
  | some (Json.num n) => (some (Json.num n), none, false)
  | some (Json.str s) => (some (Json.str s), none, false)
  | some (Json.obj fs) => (some (Json.obj fs), none, false)

/-- Handling of the `enum` key by `cleanJsonSchema` (part_008 lines 206-213):
a null sentinel inside an enum array is filtered out and recorded as
`nullable = true`; every other shape is copied verbatim. -/
def enumOut : Option Json → Option Json × Bool
  | none => (none, false)
  | some (Json.arr vs) =>
    if vs.any Json.isNullVal then
      (some (Json.arr (vs.filter (fun v => !(Json.isNullVal v)))), true)
    else
      (some (Json.arr vs), false)
  | some Json.null => (some Json.null, false)
  | some (Json.bool b) => (some (Json.bool b), false)
  | some (Json.num n) => (some (Json.num n), false)
  | some (Json.str s) => (some (Json.str s), false)
  | some (Json.obj fs) => (some (Json.obj fs), false)

/-- Recognized output keys of `cleanJsonSchema`, one `Option` per key.  The
JavaScript function assigns the keys of `cleaned` in a fixed program order;
this record collects the final value of each key (later assignments to
`nullable` and `oneOf` overwrite earlier ones, which is resolved before the
record is built). -/
structure CleanParts where
  fType : Option Json
  fProps : Option Json
  fRequired : Option Json
  fItems : Option Json
  fFormat : Option Json
  fPattern : Option Json
  fMinLength : Option Json
  fMaxLength : Option Json
  fMinimum : Option Json
  fMaximum : Option Json
  fEnum : Option Json
  fDefault : Option Json
  fDescription : Option Json
  fExample : Option Json
  fNullable : Option Json
  fOneOf : Option Json
  fAnyOf : Option Json
  fAllOf : Option Json

/-- Emit a key only when its value is present. -/
def optField (k : String) (v : Option Json) : List (String × Json) :=
  match v with
  | none => []
  | some j => [(k, j)]

/-- Assemble the `cleaned` object of `cleanJsonSchema` from the per-key
values.  Key order is the canonical program order of the source's
assignments (JSON object key order carries no meaning for a schema). -/
def partsToFields (p : CleanParts) : List (String × Json) :=
  optField "type" p.fType ++ (optField "properties" p.fProps ++
  (optField "required" p.fRequired ++ (optField "items" p.fItems ++
  (optField "format" p.fFormat ++ (optField "pattern" p.fPattern ++
  (optField "minLength" p.fMinLength ++ (optField "maxLength" p.fMaxLength ++
  (optField "minimum" p.fMinimum ++ (optField "maximum" p.fMaximum ++
  (optField "enum" p.fEnum ++ (optField "default" p.fDefault ++
  (optField "description" p.fDescription ++ (optField "example" p.fExample ++
  (optField "nullable" p.fNullable ++ (optField "oneOf" p.fOneOf ++
  (optField "anyOf" p.fAnyOf ++ (optField "allOf" p.fAllOf ++
  ([] : List (String × Json)))))))))))))))))))

/-- Handling of the `required` key (copied only when it is an array). -/
def requiredOut : Option Json → Option Json
  | none => none
  | some (Json.arr xs) => some (Json.arr xs)
  | some Json.null => none
  | some (Json.bool _) => none
  | some (Json.num _) => none
  | some (Json.str _) => none
  | some (Json.obj _) => none

/-- Final value of the `nullable` key: an explicitly present `nullable` is
copied last (part_008 line 220) and therefore overwrites the `true` recorded
by the `type`-array and `enum` branches. -/
def nullableOut (nv : Option Json) (tN eN : Bool) : Option Json :=
  match nv with
  | some v => some v
  | none => if tN || eN then some (Json.bool true) else none

mutual

/-- Embedding of `cleanJsonSchema` (part_008 lines 149-234).  Non-objects are
returned unchanged (`!schema || typeof schema !== 'object'`); a JavaScript
array reaches the object path but none of the recognized keys exist on it, so
it cleans to an empty object.  The handling of each recognized key is split
into the named helpers `typeOut`, `cleanPropsKey`, `requiredOut`,
`cleanItemsKey`, `enumOut`, `nullableOut` and `cleanOfKey`, which the source
writes inline in one function body. -/
def cleanJsonSchema : Json → Except Unit Json
  | Json.null => Except.ok Json.null
  | Json.bool b => Except.ok (Json.bool b)
  | Json.num n => Except.ok (Json.num n)
  | Json.str s => Except.ok (Json.str s)
  | Json.arr _ => Except.ok (Json.obj [])
  | Json.obj fields => do
    let t3 := typeOut (jGet fields "type")
    let po ← cleanPropsKey (jGet fields "properties")
    let io ← cleanItemsKey (jGet fields "items")
    let e2 := enumOut (jGet fields "enum")
    let oo ← cleanOfKey (jGet fields "oneOf")
    let ao ← cleanOfKey (jGet fields "anyOf")
    let lo ← cleanOfKey (jGet fields "allOf")
    Except.ok (Json.obj (partsToFields
      { fType := t3.1
        fProps := po
        fRequired := requiredOut (jGet fields "required")
        fItems := io
        fFormat := jGet fields "format"
        fPattern := jGet fields "pattern"
        fMinLength := jGet fields "minLength"
        fMaxLength := jGet fields "maxLength"
        fMinimum := jGet fields "minimum"
        fMaximum := jGet fields "maximum"
        fEnum := e2.1
        fDefault := jGet fields "default"
        fDescription := jGet fields "description"
        fExample := jGet fields "example"
        fNullable := nullableOut (jGet fields "nullable") t3.2.2 e2.2
        fOneOf := match oo with
          | some l => some l
          | none => t3.2.1
        fAnyOf := ao
        fAllOf := lo }))
termination_by j => sizeOf j
decreasing_by
  all_goals exact jGet_opt_sizeOf_lt _ _

/-- Handling of the `properties` key (part_008 lines 182-187).  A `properties`
object has each value cleaned recursively; `Object.keys(null)` throws a
`TypeError` in the source, modelled as `Except.error`; an array or a string
enumerates its JavaScript index keys; a number or boolean has no enumerable
keys. -/
def cleanPropsKey : Option Json → Except Unit (Option Json)
  | none => Except.ok none
  | some (Json.obj props) => do
    let cs ← cleanPairs props
    Except.ok (some (Json.obj cs))
  | some (Json.arr xs) => do
    let cs ← cleanList xs
    Except.ok (some (Json.obj (cs.enum.map (fun q => (toString q.1, q.2)))))
  | some (Json.str s) =>
    Except.ok (some (Json.obj (s.data.enum.map
      (fun q => (toString q.1, Json.str (String.singleton q.2))))))
  | some Json.null => Except.error ()
  | some (Json.bool _) => Except.ok (some (Json.obj []))
  | some (Json.num _) => Except.ok (some (Json.obj []))
termination_by o => sizeOf o
decreasing_by
  all_goals simp
  all_goals omega

/-- Handling of the `items` key (part_008 lines 193-195): cleaned
recursively whenever present. -/
def cleanItemsKey : Option Json → Except Unit (Option Json)
  | none => Except.ok none
  | some v => do
    let c ← cleanJsonSchema v
    Except.ok (some c)
termination_by o => sizeOf o
decreasing_by
  all_goals first
    | (simp; omega)
    | simp
    | omega

/-- Handling of the `oneOf`/`anyOf`/`allOf` keys (part_008 lines 223-231):
`.map` over an array cleans each member recursively; `.map` on any non-array
value throws a `TypeError` in the source, modelled as `Except.error`. -/
def cleanOfKey : Option Json → Except Unit (Option Json)
  | none => Except.ok none
  | some (Json.arr xs) => do
    let cs ← cleanList xs
    Except.ok (some (Json.arr cs))
  | some Json.null => Except.error ()
  | some (Json.bool _) => Except.error ()
  | some (Json.num _) => Except.error ()
  | some (Json.str _) => Except.error ()
  | some (Json.obj _) => Except.error ()
termination_by o => sizeOf o
decreasing_by
  all_goals first
    | (simp; omega)
    | simp
    | omega

/-- Recursive cleaning of the values of a `properties` object. -/
def cleanPairs : List (String × Json) → Except Unit (List (String × Json))
  | [] => Except.ok []
  | (k, v) :: rest => do
    let c ← cleanJsonSchema v
    let cs ← cleanPairs rest
    Except.ok ((k, c) :: cs)
termination_by l => sizeOf l
decreasing_by
  all_goals simp
  omega

/-- Recursive cleaning of the members of a `oneOf`/`anyOf`/`allOf` array. -/
def cleanList : List Json → Except Unit (List Json)
  | [] => Except.ok []
  | x :: rest => do
    let c ← cleanJsonSchema x
    let cs ← cleanList rest
    Except.ok (c :: cs)
termination_by l => sizeOf l
decreasing_by
  all_goals simp
  omega

end

/-- Member of a `type` array that survives a second normalization pass
unchanged: anything except an array that itself contains the string
`'null'` (`cleanJsonSchema` rewrites such nested arrays again when they
surface as a `type` value on the next pass). -/
def typeElemOk : Json → Bool
  | Json.arr ys => !(ys.any Json.isNullLit)
  | Json.null => true
  | Json.bool _ => true
  | Json.num _ => true
  | Json.str _ => true
  | Json.obj _ => true

/-- Condition on a `type` key value under which its normalization is
idempotent. -/
def typeKeyOk : Option Json → Bool
  | some (Json.arr ts) => ts.all typeElemOk
  | some Json.null => true
  | some (Json.bool _) => true
  | some (Json.num _) => true
  | some (Json.str _) => true
  | some (Json.obj _) => true
  | none => true

mutual

/-- Schemas on which `cleanJsonSchema` is idempotent: every `type` key in the
schema tree (including inside `properties` values, `items` and
`oneOf`/`anyOf`/`allOf` members) satisfies `typeKeyOk`. -/
def TypeOk : Json → Bool
  | Json.obj fields =>
    typeKeyOk (jGet fields "type")
    && (propsKeyOk (jGet fields "properties")
    && (itemsKeyOk (jGet fields "items")
    && (ofKeyOk (jGet fields "oneOf")
    && (ofKeyOk (jGet fields "anyOf")
    && ofKeyOk (jGet fields "allOf")))))
  | Json.null => true
  | Json.bool _ => true
  | Json.num _ => true
  | Json.str _ => true
  | Json.arr _ => true
termination_by j => sizeOf j
decreasing_by
  all_goals exact jGet_opt_sizeOf_lt _ _

/-- `TypeOk` through a `properties` value. -/
def propsKeyOk : Option Json → Bool
  | some (Json.obj props) => TypeOkPairs props
  | some (Json.arr xs) => TypeOkList xs
  | some Json.null => true
  | some (Json.bool _) => true
  | some (Json.num _) => true
  | some (Json.str _) => true
  | none => true
termination_by o => sizeOf o
decreasing_by
  all_goals first
    | (simp; omega)
    | simp
    | omega

/-- `TypeOk` through an `items` value. -/
def itemsKeyOk : Option Json → Bool
  | some v => TypeOk v
  | none => true
termination_by o => sizeOf o
decreasing_by
  all_goals first
    | (simp; omega)
    | simp
    | omega

/-- `TypeOk` through a `oneOf`/`anyOf`/`allOf` value. -/
def ofKeyOk : Option Json → Bool
  | some (Json.arr xs) => TypeOkList xs
  | some Json.null => true
  | some (Json.bool _) => true
  | some (Json.num _) => true
  | some (Json.str _) => true
  | some (Json.obj _) => true
  | none => true
termination_by o => sizeOf o
decreasing_by
  all_goals first
    | (simp; omega)
    | simp
    | omega

/-- Pointwise `TypeOk` over the values of an association list. -/
def TypeOkPairs : List (String × Json) → Bool
  | [] => true
  | (_, v) :: rest => TypeOk v && TypeOkPairs rest
termination_by l => sizeOf l
decreasing_by
  all_goals simp
  omega

/-- Pointwise `TypeOk` over a list. -/
def TypeOkList : List Json → Bool
  | [] => true
  | x :: rest => TypeOk x && TypeOkList rest
termination_by l => sizeOf l
decreasing_by
  all_goals simp
  omega

end

/-! ### Route extractor (src `parser`, part_007 lines 914-1055) -/

theorem dropWhile_length_le (p : Char → Bool) (l : List Char) :
    (l.dropWhile p).length ≤ l.length := by
  induction l with
  | nil => simp
  | cons c rest ih =>
    rw [List.dropWhile]
    cases p c <;> simp <;> omega

/-- JavaScript `\s` (the ASCII fragment; the source's routing files are
ASCII). -/
def isWs (c : Char) : Bool :=
  c = ' ' || c = '\t' || c = '\n' || c = '\r' || c = Char.ofNat 11 || c = Char.ofNat 12

/-- Quote class `['"]` plus backquote of the route regex. -/
def isQuoteCh (c : Char) : Bool :=
  c = Char.ofNat 39 || c = '"' || c = Char.ofNat 96

/-- JavaScript `\w`. -/
def isWordCh (c : Char) : Bool := c.isAlpha || c.isDigit || c = '_'

/-- First character of a JavaScript identifier (`[A-Za-z_$]`). -/
def isIdStart (c : Char) : Bool := c.isAlpha || c = '_' || c = '$'

/-- Subsequent character of a JavaScript identifier (`[A-Za-z0-9_$]`). -/
def isIdCh (c : Char) : Bool := isIdStart c || c.isDigit

/-- Path-parameter rewrite `routePath.replace(/:\w+/g, m => (brace m brace))`
of part_007 lines 949-950: each `:name` token becomes a brace-delimited
`name` placeholder. -/
def rewritePath : List Char → List Char
  | [] => []
  | c :: rest =>
    if c = ':' then
      let w := rest.takeWhile isWordCh
      if w.isEmpty then ':' :: rewritePath rest
      else '{' :: (w ++ ('}' :: rewritePath (rest.dropWhile isWordCh)))
    else c :: rewritePath rest
termination_by l => l.length
decreasing_by
  all_goals simp
  all_goals
    first
      | exact Nat.lt_succ_of_le (dropWhile_length_le _ _)
      | omega

/-- Extracted route registration (the `RouteInfo` interface of src `types`,
part_000 lines 1-9). -/
structure RouteInfo where
  method : List Char
  path : List Char
  handlerName : List Char
  controllerMethod : List Char
  hasAuth : Bool
  middleware : List (List Char)
  validatorSchema : Option (List Char)
deriving Repr, DecidableEq

/-- Strip a literal pattern from the front of a string. -/
def stripLit : List Char → List Char → Option (List Char)
  | [], s => some s
  | _ :: _, [] => none
  | p :: ps, c :: cs => if c = p then stripLit ps cs else none

/-- Alternation `(get|post|put|patch|delete)` with `.toUpperCase()` applied to
the captured verb.  No verb is a prefix of another, so first-match equals the
regex alternation semantics. -/
def matchVerb (s : List Char) : Option (List Char × List Char) :=
  match stripLit "get".data s with
  | some r => some ("GET".data, r)
  | none =>
    match stripLit "post".data s with
    | some r => some ("POST".data, r)
    | none =>
      match stripLit "put".data s with
      | some r => some ("PUT".data, r)
      | none =>
        match stripLit "patch".data s with
        | some r => some ("PATCH".data, r)
        | none =>
          match stripLit "delete".data s with
          | some r => some ("DELETE".data, r)
          | none => none

/-- Attempt the registration regex
`router\.(get|post|put|patch|delete)\s*\(\s*['"]([^'"]+)['"]` (with the
backquote in each quote class) at the start of `s`.  All the character
classes are disjoint from their successors, so the greedy deterministic scan
agrees with the regex.  Returns the uppercased method, the path literal, and
the suffix after the closing quote (the regex `lastIndex`). -/
def tryRouteAt (s : List Char) : Option (List Char × List Char × List Char) :=
  match stripLit "router.".data s with
  | none => none
  | some s1 =>
    match matchVerb s1 with
    | none => none
    | some (m, s2) =>
      match s2.dropWhile isWs with
      | '(' :: s4 =>
        match s4.dropWhile isWs with
        | q :: s6 =>
          if isQuoteCh q then
            let p := s6.takeWhile (fun c => !(isQuoteCh c))
            match s6.dropWhile (fun c => !(isQuoteCh c)) with
            | _ :: s8 => if p.isEmpty then none else some (m, p, s8)
            | [] => none
          else none
        | [] => none
      | _ => none

/-- Leftmost registration-regex match at or after the start of `s`
(`routeRegex.exec`). -/
def findRoute : List Char → Option (List Char × List Char × List Char)
  | [] => none
  | c :: rest =>
    match tryRouteAt (c :: rest) with
    | some r => some r
    | none => findRoute rest

/-- Balanced-parenthesis scan for the close matching `router.METHOD(`
(part_007 lines 931-947; `parenCount` starts at 1, `depth` is the current
count).  Returns the text before the matching close, and whether a matching
close was found — when none is found the whole remaining file is taken
(`endPos` keeps its `fileContent.length` default). -/
def argSection : List Char → Nat → List Char × Bool
  | [], _ => ([], false)
  | c :: rest, depth =>
    if c = '(' then
      let t := argSection rest (depth + 1)
      (c :: t.1, t.2)
    else if c = ')' then
      if depth = 1 then ([], true)
      else
        let t := argSection rest (depth - 1)
        (c :: t.1, t.2)
    else
      let t := argSection rest depth
      (c :: t.1, t.2)

/-- Substring containment (JavaScript `String.prototype.includes`). -/
def hasSub (needle : List Char) : List Char → Bool
  | [] => needle.isEmpty
  | c :: rest => needle.isPrefixOf (c :: rest) || hasSub needle rest

/-- Suffix following the first occurrence of `needle` (JavaScript `indexOf`
plus offset by the needle length); `none` when absent. -/
def afterSub (needle : List Char) : List Char → Option (List Char)
  | [] => if needle.isEmpty then some [] else none
  | c :: rest =>
    if needle.isPrefixOf (c :: rest) then some ((c :: rest).drop needle.length)
    else afterSub needle rest

/-- Balanced scan of the `validate(...)` argument (part_007 lines 965-979;
`parenCount` starts at 0 and a close at count 0 terminates).  Returns the
text before the matching close, `none` when no matching close exists. -/
def scanToClose : List Char → Nat → Option (List Char)
  | [], _ => none
  | c :: rest, depth =>
    if c = ')' then
      if depth = 0 then some []
      else
        match scanToClose rest (depth - 1) with
        | some t => some (c :: t)
        | none => none
    else if c = '(' then
      match scanToClose rest (depth + 1) with
      | some t => some (c :: t)
      | none => none
    else
      match scanToClose rest depth with
      | some t => some (c :: t)
      | none => none

/-- JavaScript `String.prototype.trim` (ASCII whitespace). -/
def trimWs (s : List Char) : List Char :=
  ((s.dropWhile isWs).reverse.dropWhile isWs).reverse

/-- JavaScript `.replace(/\s+/g, ' ')`. -/
def collapseWs : List Char → List Char
  | [] => []
  | c :: rest =>
    if isWs c then ' ' :: collapseWs (rest.dropWhile isWs)
    else c :: collapseWs rest
termination_by l => l.length
decreasing_by
  all_goals simp
  all_goals
    first
      | exact Nat.lt_succ_of_le (dropWhile_length_le _ _)
      | omega

/-- Extraction of the `validate(...)` schema reference (part_007 lines
960-987): only when the argument text is non-empty (`end > start`) is the
trimmed, whitespace-collapsed reference recorded. -/
def extractValidate (mah : List Char) : Option (List Char) :=
  if hasSub "validate".data mah then
    match afterSub "validate(".data mah with
    | none => none
    | some s =>
      match scanToClose s 0 with
      | none => none
      | some t => if t.isEmpty then none else some (collapseWs (trimWs t))
  else none

/-- Middleware tagging of part_007 lines 952-987: literal containment tests
for `authenticate` and `requireAdmin`, and the `validate(...)` reference. -/
def routeMiddleware (mah : List Char) : List (List Char) × Option (List Char) :=
  let m1 : List (List Char) :=
    if hasSub "authenticate".data mah then ["authenticate".data] else []
  let m2 := if hasSub "requireAdmin".data mah then m1 ++ ["requireAdmin".data] else m1
  match extractValidate mah with
  | some ref => (m2 ++ ["validate(".data ++ ref ++ [')']], some ref)
  | none => (m2, none)

/-- Auth detection of part_007 lines 989-991. -/
def hasAuthOf (middleware : List (List Char)) : Bool :=
  middleware.any (fun m =>
    hasSub "authenticate".data m || hasSub "requireAdmin".data m)

/-- Lookahead `(?=\s*(?:\.bind\s*\(|,|\)|$))` of the handler regex
(part_007 line 999). -/
def dottedLookahead (s : List Char) : Bool :=
  let r := s.dropWhile isWs
  (match stripLit ".bind".data r with
   | some r2 =>
     match r2.dropWhile isWs with
     | '(' :: _ => true
     | _ => false
   | none => false)
  || (match r with
      | ',' :: _ => true
      | ')' :: _ => true
      | [] => true
      | _ => false)

/-- Attempt `([A-Za-z_$][A-Za-z0-9_$]*)\s*\.\s*([A-Za-z_$][A-Za-z0-9_$]*)`
followed by the lookahead, at the start of `s`.  Returns both captures and
the suffix after the second identifier (the match end). -/
def tryDottedAt (s : List Char) : Option (List Char × List Char × List Char) :=
  match s with
  | [] => none
  | c :: rest =>
    if isIdStart c then
      let id1 := c :: rest.takeWhile isIdCh
      match (rest.dropWhile isIdCh).dropWhile isWs with
      | '.' :: r3 =>
        match r3.dropWhile isWs with
        | d :: r5 =>
          if isIdStart d then
            let id2 := d :: r5.takeWhile isIdCh
            let r6 := r5.dropWhile isIdCh
            if dottedLookahead r6 then some (id1, id2, r6) else none
          else none
        | [] => none
      | _ => none
    else none

theorem tryDottedAt_length {s r : List Char} {o m : List Char}
    (h : tryDottedAt s = some (o, m, r)) : r.length < s.length := by
  match s with
  | [] => simp [tryDottedAt] at h
  | c :: rest =>
    simp only [tryDottedAt] at h
    split at h
    case isTrue hst =>
      have l1 : ((rest.dropWhile isIdCh).dropWhile isWs).length ≤ rest.length :=
        le_trans (dropWhile_length_le _ _) (dropWhile_length_le _ _)
      split at h
      case h_1 r3 heq =>
        have l2 : r3.length < rest.length := by
          have := congrArg List.length heq
          simp at this
          omega
        split at h
        case h_1 d r5 heq2 =>
          have l3 : r5.length < r3.length := by
            have h4 := dropWhile_length_le isWs r3
            have := congrArg List.length heq2
            simp at this
            omega
          split at h
          case isTrue =>
            split at h
            case isTrue =>
              cases h
              have l4 := dropWhile_length_le isIdCh r5
              simp
              omega
            case isFalse => cases h
          case isFalse => cases h
        case h_2 => cases h
      case h_2 => cases h
    case isFalse => cases h

/-- All handler-regex matches of the argument text, in global-regex order
(`matchAll`: leftmost match, then resume after each match end). -/
def dottedMatches : List Char → List (List Char × List Char)
  | [] => []
  | c :: rest =>
    match hd : tryDottedAt (c :: rest) with
    | some (o, m, r) => (o, m) :: dottedMatches r
    | none => dottedMatches rest
termination_by l => l.length
decreasing_by
  · exact tryDottedAt_length hd
  · simp

/-- Split on a separator character (JavaScript `String.prototype.split`). -/
def splitOnChar (sep : Char) : List Char → List (List Char)
  | [] => [[]]
  | c :: rest =>
    if c = sep then [] :: splitOnChar sep rest
    else
      match splitOnChar sep rest with
      | [] => [[c]]
      | q :: qs => (c :: q) :: qs

/-- JavaScript `part.charAt(0).toUpperCase() + part.slice(1).toLowerCase()`. -/
def capLower : List Char → List Char
  | [] => []
  | c :: rest => Char.toUpper c :: rest.map Char.toLower

/-- JavaScript `s.charAt(0).toUpperCase() + s.slice(1)`. -/
def capFirst : List Char → List Char
  | [] => []
  | c :: rest => Char.toUpper c :: rest

/-- Embedding of `generateOperationId` (part_007 lines 1037-1055). -/
def generateOperationId (method routePath : List Char) : List Char :=
  let p1 :=
    match routePath with
    | '/' :: rest => rest
    | s => s
  let p2 := p1.filter (fun c => !(c = '{' || c = '}'))
  let p3 := p2.filter (fun c => c.isAlpha || c.isDigit || c = '/')
  let parts := (splitOnChar '/' p3).filter (fun q => !q.isEmpty)
  let cleanPath :=
    (parts.mapIdx (fun i q => if i = 0 then q.map Char.toLower else capLower q)).flatten
  (method.map Char.toLower) ++ capFirst cleanPath

/-- Final controller-method resolution (part_007 lines 1019-1021): a
leftover `unknown` or `bind` is replaced by a synthesized operation id. -/
def resolveControllerMethod (cm method rawPath : List Char) : List Char :=
  if cm = "unknown".data || cm = "bind".data then
    generateOperationId method rawPath
  else cm

/-- Build one `RouteInfo` from a registration-regex match: `method` is the
uppercased verb, `rawPath` the path literal, `tail` the file suffix right
after the match (part_007 lines 929-1031).  The handler is the last
`object.method` match; an inline `(req, res)` handler synthesizes an
operation id; a leftover `unknown` or `bind` controller method is replaced
by a synthesized operation id. -/
def buildRoute (basePath method rawPath tail : List Char) : RouteInfo :=
  let mah := (argSection tail 1).1
  let fullPath := basePath ++ rewritePath rawPath
  let mw := routeMiddleware mah
  let hm :=
    match (dottedMatches mah).getLast? with
    | some (o, m) => (o ++ '.' :: m, m)
    | none =>
      if hasSub "(req, res)".data mah || hasSub "(req,res)".data mah then
        ("anonymous".data, generateOperationId method rawPath)
      else
        ("unknown".data, "unknown".data)
  let cm := resolveControllerMethod hm.2 method rawPath
  { method := method
    path := fullPath
    handlerName := hm.1
    controllerMethod := cm
    hasAuth := hasAuthOf mw.1
    middleware := mw.1
    validatorSchema := mw.2 }

theorem stripLit_length {p s r : List Char} (h : stripLit p s = some r) :
    r.length + p.length = s.length := by
  induction p generalizing s with
  | nil => cases h; simp
  | cons a ps ih =>
    match s with
    | [] => simp [stripLit] at h
    | c :: cs =>
      simp only [stripLit] at h
      split at h
      · have := ih h
        simp
        omega
      · cases h

theorem matchVerb_length {s r m : List Char} (h : matchVerb s = some (m, r)) :
    r.length < s.length := by
  simp only [matchVerb] at h
  split at h
  case h_1 r0 heq => cases h; have := stripLit_length heq; simp at this; omega
  case h_2 =>
    split at h
    case h_1 r0 heq => cases h; have := stripLit_length heq; simp at this; omega
    case h_2 =>
      split at h
      case h_1 r0 heq => cases h; have := stripLit_length heq; simp at this; omega
      case h_2 =>
        split at h
        case h_1 r0 heq => cases h; have := stripLit_length heq; simp at this; omega
        case h_2 =>
          split at h
          case h_1 r0 heq => cases h; have := stripLit_length heq; simp at this; omega
          case h_2 => cases h

theorem tryRouteAt_length {s : List Char} {m p r : List Char}
    (h : tryRouteAt s = some (m, p, r)) : r.length < s.length := by
  simp only [tryRouteAt] at h
  split at h
  case h_1 => cases h
  case h_2 s1 heq1 =>
    have hl1 : s1.length + 7 = s.length := by
      have := stripLit_length heq1
      simpa using this
    split at h
    case h_1 => cases h
    case h_2 mm s2 heq2 =>
      have hl2 : s2.length < s1.length := matchVerb_length heq2
      have hl3 := dropWhile_length_le isWs s2
      split at h
      case h_1 s4 heq3 =>
        have hl4 : s4.length < s2.length := by
          have := congrArg List.length heq3
          simp at this
          omega
        have hl5 := dropWhile_length_le isWs s4
        split at h
        case h_1 q s6 heq4 =>
          have hl6 : s6.length < s4.length := by
            have := congrArg List.length heq4
            simp at this
            omega
          split at h
          case isTrue =>
            have hl7 := dropWhile_length_le (fun c => !(isQuoteCh c)) s6
            split at h
            case h_1 qc s8 heq5 =>
              have hl8 : s8.length < s6.length := by
                have := congrArg List.length heq5
                simp at this
                omega
              split at h
              case isTrue => cases h
              case isFalse =>
                cases h
                omega
            case h_2 => cases h
          case isFalse => cases h
        case h_2 => cases h
      case h_2 => cases h

theorem findRoute_length {s : List Char} {m p r : List Char}
    (h : findRoute s = some (m, p, r)) : r.length < s.length := by
  induction s with
  | nil => simp [findRoute] at h
  | cons c rest ih =>
    simp only [findRoute] at h
    split at h
    case h_1 val heq =>
      cases h
      exact tryRouteAt_length heq
    case h_2 =>
      have := ih h
      simp
      omega

/-- Embedding of `extractRoutes` (part_007 lines 914-1035): find each
registration with the route regex, emit one `RouteInfo` per match, and resume
the regex scan right after the matched path literal (the JavaScript
`lastIndex`). -/
def extractRoutes (content basePath : List Char) : List RouteInfo :=
  match hf : findRoute content with
  | none => []
  | some (m, p, rest) => buildRoute basePath m p rest :: extractRoutes rest basePath
termination_by content.length
decreasing_by
  exact findRoute_length hf

/-- Registration-regex matches of a routing file under global-regex
semantics (the calls `extractRoutes` iterates over). -/
def registrationMatches (content : List Char) : List (List Char × List Char) :=
  match hf : findRoute content with
  | none => []
  | some (m, p, rest) => (m, p) :: registrationMatches rest
termination_by content.length
decreasing_by
  exact findRoute_length hf

/-! ### Controller analyzer (part_007 lines 1057-1150 and `inferFieldType`) -/

/-- Analyzed request-body field (the `FieldInfo` interface of src `types`). -/
structure FieldInfo where
  name : List Char
  type : List Char
  required : Bool
deriving Repr, DecidableEq

/-- Result of one handler analysis (the `ControllerInfo` interface of src
`types`). -/
structure ControllerInfo where
  requestBodyType : Option (List Char)
  requestBodyFields : List FieldInfo
  responseType : Option (List Char)
  statusCodes : List Nat
deriving Repr, DecidableEq

/-- JavaScript `content.split('\n')`. -/
def splitLines : List Char → List (List Char) := splitOnChar '\n'

/-- Embedding of `inferFieldType` (part_007 lines 348-374): name-substring
rules first, then usage-pattern rules over `lines.slice(startLine)` joined
with newlines, then the `string` default. -/
def inferFieldType (fieldName : List Char) (lines : List (List Char))
    (startLine : Nat) : List Char :=
  let fieldUsage := List.intercalate "\n".data (lines.drop startLine)
  let lower := fieldName.map Char.toLower
  if hasSub "email".data lower then "string (email)".data
  else if hasSub "password".data lower then "string (password)".data
  else if hasSub "id".data lower then "string (uuid)".data
  else if hasSub "age".data lower || hasSub "count".data lower then "number".data
  else if hasSub "price".data lower || hasSub "amount".data lower then "number".data
  else if hasSub "date".data lower || hasSub "time".data lower then "string (date)".data
  else if hasSub "is".data lower || hasSub "has".data lower then "boolean".data
  else if hasSub ("parseInt(".data ++ fieldName ++ [')']) fieldUsage ||
      hasSub ("Number(".data ++ fieldName ++ [')']) fieldUsage then "number".data
  else if hasSub (fieldName ++ ".toLowerCase()".data) fieldUsage ||
      hasSub (fieldName ++ ".trim()".data) fieldUsage then "string".data
  else if hasSub (fieldName ++ " === true".data) fieldUsage ||
      hasSub (fieldName ++ " === false".data) fieldUsage then "boolean".data
  else "string".data

/-- Digit-string value (JavaScript `parseInt` on a `\d+` capture). -/
def digitsToNat (ds : List Char) : Nat :=
  ds.foldl (fun a c => a * 10 + (c.toNat - 48)) 0

/-- Attempt `res\.status\((\d+)\)` at the start of `s`. -/
def statusAt (s : List Char) : Option Nat :=
  match stripLit "res.status(".data s with
  | none => none
  | some r =>
    let ds := r.takeWhile Char.isDigit
    if ds.isEmpty then none
    else
      match r.dropWhile Char.isDigit with
      | ')' :: _ => some (digitsToNat ds)
      | _ => none

/-- First `res.status(...)` match on a line (part_007 line 1092). -/
def findStatus : List Char → Option Nat
  | [] => none
  | c :: rest =>
    match statusAt (c :: rest) with
    | some n => some n
    | none => findStatus rest

/-- Attempt `const\s+\x7b([^\x7d]+)\x7d\s*=\s*req\.body` at the start of
`s`; returns the destructuring capture. -/
def bodyAt (s : List Char) : Option (List Char) :=
  match stripLit "const".data s with
  | none => none
  | some r1 =>
    if (r1.takeWhile isWs).isEmpty then none
    else
      match r1.dropWhile isWs with
      | '{' :: r2 =>
        let inner := r2.takeWhile (fun c => !(c = '}'))
        if inner.isEmpty then none
        else
          match r2.dropWhile (fun c => !(c = '}')) with
          | '}' :: r3 =>
            match r3.dropWhile isWs with
            | '=' :: r4 =>
              match stripLit "req.body".data (r4.dropWhile isWs) with
              | some _ => some inner
              | none => none
            | _ => none
          | _ => none
      | _ => none

/-- First request-body destructuring match on a line (part_007 line 1102). -/
def findBody : List Char → Option (List Char)
  | [] => none
  | c :: rest =>
    match bodyAt (c :: rest) with
    | some inner => some inner
    | none => findBody rest

/-- JavaScript `capture.split(',').map(s => s.trim())`. -/
def parseFields (inner : List Char) : List (List Char) :=
  (splitOnChar ',' inner).map trimWs

/-- Count occurrences of a character (`(line.match(/x/g) || []).length`). -/
def countCh (c : Char) (l : List Char) : Nat :=
  (l.filter (fun x => x = c)).length

/-- Method-definition detection (part_007 line 1082). -/
def methodStartLine (line : List Char) (cands : List (List Char)) : Bool :=
  (hasSub "async".data line || hasSub "=".data line) &&
  cands.any (fun c => hasSub (c.map Char.toLower) (line.map Char.toLower))

/-- JavaScript `methodName.replace(/^(get|post|put|patch|delete)/i, '')`. -/
def stripVerbPrefix (name : List Char) : List Char :=
  let lower := name.map Char.toLower
  if "get".data.isPrefixOf lower then name.drop 3
  else if "post".data.isPrefixOf lower then name.drop 4
  else if "put".data.isPrefixOf lower then name.drop 3
  else if "patch".data.isPrefixOf lower then name.drop 5
  else if "delete".data.isPrefixOf lower then name.drop 6
  else name

/-- The analyzer loop of part_007 lines 1078-1127, as a recursion over the
remaining lines.  The state is `(inMethod, braceCount, statusCodes,
requestBodyType, requestBodyFields)`; the suffix starting at the current
line is what `lines.slice(i)` denotes inside the loop.  The loop `break`
fires after the current line's updates when the method's braces have closed. -/
def analyzeLoop : List (List Char) → List (List Char) → Bool → Int →
    List Nat → Option (List Char) → List FieldInfo →
    List Nat × Option (List Char) × List FieldInfo
  | [], _, _, _, codes, rbType, rbFields => (codes, rbType, rbFields)
  | line :: rest, cands, inMethod, brace, codes, rbType, rbFields =>
    let inM := if methodStartLine line cands then true else inMethod
    if inM then
      let brace2 := brace + (countCh '{' line : Int) - (countCh '}' line : Int)
      let codes2 :=
        match findStatus line with
        | some code => if codes.contains code then codes else codes ++ [code]
        | none => codes
      let rb2 :=
        if hasSub "req.body".data line then
          match findBody line with
          | some inner =>
            let fieldsList := parseFields inner
            (some (List.intercalate ", ".data fieldsList),
             fieldsList.map (fun f =>
               { name := f
                 type := inferFieldType f (line :: rest) 0
                 required := true }))
          | none => (rbType, rbFields)
        else (rbType, rbFields)
      if brace2 = 0 && hasSub "\x7d".data line then (codes2, rb2.1, rb2.2)
      else analyzeLoop rest cands inM brace2 codes2 rb2.1 rb2.2
    else analyzeLoop rest cands inM brace codes rbType rbFields

/-- Embedding of `analyzeControllerMethod` (part_007 lines 1057-1150): the
text-scanning analysis.  The additional TypeScript-compiler response-type
extraction (lines 1134-1147) needs the `typescript` module and a controller
file path; it is outside the embedded fragment, and its `undefined` result
leaves `statusCodes` and `responseType` untouched, which is the modelled
configuration. -/
def analyzeControllerMethod (controllerContent : List Char)
    (methodName : List Char) : ControllerInfo :=
  let lines := splitLines controllerContent
  let stripped := stripVerbPrefix methodName
  let cands :=
    if !stripped.isEmpty && stripped ≠ methodName then [methodName, stripped]
    else [methodName]
  let r := analyzeLoop lines cands false 0 [] none []
  let codes := if r.1.isEmpty then [200] else r.1
  { requestBodyType := r.2.1
    requestBodyFields := r.2.2
    responseType := none
    statusCodes := codes }

/-! ### Request-body schema of the generator (src `generator`, part_007
lines 87-503) -/

/-- Smart-default field (the `SmartField` interface of src `types`). -/
structure SmartField where
  name : List Char
  type : List Char
  description : List Char
  required : Bool
deriving Repr, DecidableEq

/-- Embedding of `mapToSwaggerType` (generator lines 337-346). -/
def mapToSwaggerType (typeString : List Char) : List Char :=
  if hasSub "number".data typeString then "number".data
  else if hasSub "boolean".data typeString then "boolean".data
  else if hasSub "date".data typeString then "string".data
  else if hasSub "email".data typeString then "string".data
  else if hasSub "password".data typeString then "string".data
  else if hasSub "uuid".data typeString then "string".data
  else "string".data

/-- Embedding of `generateSmartDefaults` (generator lines 376-503). -/
def generateSmartDefaults (route : RouteInfo) : List SmartField :=
  let path := route.path.map Char.toLower
  let method := route.method.map Char.toLower
  let operationId := route.controllerMethod.map Char.toLower
  let f1 : List SmartField :=
    if hasSub "login".data path || hasSub "login".data operationId then
      [⟨"email".data, "string".data, "User email address".data, true⟩,
       ⟨"password".data, "string".data, "User password".data, true⟩]
    else []
  let f2 := f1 ++
    (if hasSub "register".data path || hasSub "register".data operationId then
      [⟨"email".data, "string".data, "User email address".data, true⟩,
       ⟨"password".data, "string".data, "User password".data, true⟩,
       ⟨"username".data, "string".data, "Username".data, false⟩]
     else [])
  let f3 := f2 ++
    (if hasSub "payment".data path || hasSub "payment".data operationId then
      [⟨"amount".data, "number".data, "Payment amount in cents".data, true⟩,
       ⟨"currency".data, "string".data, "Currency code (e.g., usd)".data, false⟩,
       ⟨"description".data, "string".data, "Payment description".data, false⟩]
     else [])
  let f4 := f3 ++
    (if hasSub "user".data path && (method = "post".data || method = "put".data) then
      [⟨"email".data, "string".data, "User email".data, false⟩,
       ⟨"username".data, "string".data, "Username".data, false⟩,
       ⟨"firstName".data, "string".data, "First name".data, false⟩,
       ⟨"lastName".data, "string".data, "Last name".data, false⟩]
     else [])
  let f5 := f4 ++
    (if hasSub "transaction".data path then
      [⟨"amount".data, "number".data, "Transaction amount".data, true⟩,
       ⟨"description".data, "string".data, "Transaction description".data, false⟩]
     else [])
  if method = "post".data && f5.isEmpty then
    [⟨"data".data, "object".data, "Request data".data, true⟩]
  else f5

/-- JavaScript `Map.prototype.set`: update in place, or append a new entry. -/
def mapSet (m : List (List Char × SmartField)) (k : List Char) (v : SmartField) :
    List (List Char × SmartField) :=
  match m with
  | [] => [(k, v)]
  | (k0, v0) :: rest =>
    if k0 = k then (k0, v) :: rest else (k0, v0) :: mapSet rest k v

/-- JavaScript `Map.prototype.has`. -/
def mapHas (m : List (List Char × SmartField)) (k : List Char) : Bool :=
  m.any (fun p => p.1 = k)

/-- Population of `fieldMap` from the controller analysis (generator lines
227-256): detected request-body fields take priority; otherwise the
comma-separated `requestBodyType` text is re-parsed with `inferFieldType`. -/
def controllerFieldMap (controllerInfo : Option ControllerInfo) :
    List (List Char × SmartField) :=
  match controllerInfo with
  | some ci =>
    if !ci.requestBodyFields.isEmpty then
      ci.requestBodyFields.foldl (fun m f =>
        mapSet m f.name ⟨f.name, mapToSwaggerType f.type, f.type, f.required⟩) []
    else
      match ci.requestBodyType with
      | some t =>
        ((splitOnChar ',' t).map trimWs).foldl (fun m f =>
          let inferred := inferFieldType f [] 0
          mapSet m f ⟨f, mapToSwaggerType inferred, inferred, true⟩) []
      | none => []
  | none => []

/-- Request-body schema kinds emitted by `generateSwaggerEndpoint`. -/
inductive RequestSchema where
  | joiSchema (schema : Json) : RequestSchema
  | inferred (fields : List SmartField) : RequestSchema
deriving Repr

/-- Request-body schema selection of `generateSwaggerEndpoint` (generator
lines 184-294) for the body-carrying methods: a resolved Joi schema wins;
otherwise controller-inferred fields are collected, and smart defaults fill
missing names only when `options.smartDefaults !== false` *and* the route
carried no validator reference (`hasValidator` suppresses the defaults when
a reference was present, including when its resolution failed).  `joiResult`
stands for the awaited result of `loadJoiSchemaFromValidator` — an I/O
action on validator modules outside the embedded fragment — which the
source only invokes when `route.validatorSchema` is set; `none` covers both
"no reference" and "resolution returned null". -/
def requestBodySchema (route : RouteInfo) (controllerInfo : Option ControllerInfo)
    (smartDefaults : Option Bool) (joiResult : Option Json) : RequestSchema :=
  match joiResult with
  | some js => RequestSchema.joiSchema js
  | none =>
    let hasValidator := route.validatorSchema.isSome
    let m1 := controllerFieldMap controllerInfo
    let m2 :=
      if smartDefaults ≠ some false && !hasValidator then
        (generateSmartDefaults route).foldl (fun m f =>
          if mapHas m f.name then m else mapSet m f.name f) m1
      else m1
    RequestSchema.inferred (m2.map (fun p => p.2))

/-! ### Declared-type resolver (src `typeExtractor`, part_007 lines 504-900)

The resolver walks TypeScript checker types.  The checker itself is an
external collaborator; the model `TyExpr` captures the facets the source
reads from it: type flags for primitives, `isStringLiteral`/`isNumberLiteral`
/`isUnion`/`isClassOrInterface`, the symbol name, `typeArguments` of
`Array<T>`, the declared members with their optionality markers, and
`checker.typeToString` rendering (anonymous object literals are rendered as
an opaque brace form without member text). -/

/-- Modelled checker type. -/
inductive TyExpr where
  | prim (name : String) : TyExpr
  | nullT : TyExpr
  | dateT : TyExpr
  | strLit (s : String) : TyExpr
  | numLit (n : Int) : TyExpr
  | union (ts : List TyExpr) : TyExpr
  | arrayOf (t : TyExpr) : TyExpr
  | iface (name : String) (props : List (String × Bool × TyExpr)) : TyExpr
  | anon (props : List (String × Bool × TyExpr)) : TyExpr
deriving Repr

mutual

/-- Rendering `checker.typeToString` of a modelled type. -/
def renderTy : TyExpr → List Char
  | TyExpr.prim p => p.data
  | TyExpr.nullT => "null".data
  | TyExpr.dateT => "Date".data
  | TyExpr.strLit s => '"' :: (s.data ++ ['"'])
  | TyExpr.numLit n => (toString n).data
  | TyExpr.union ts => List.intercalate " | ".data (renderTyList ts)
  | TyExpr.arrayOf t => renderTy t ++ "[]".data
  | TyExpr.iface n _ => n.data
  | TyExpr.anon _ => "\x7b ... \x7d".data
termination_by t => sizeOf t

/-- Pointwise rendering of union members. -/
def renderTyList : List TyExpr → List (List Char)
  | [] => []
  | t :: rest => renderTy t :: renderTyList rest
termination_by l => sizeOf l
decreasing_by
  all_goals simp
  omega

end

/-- Symbol name of a modelled type (`type.symbol?.getName()`): interface
types carry their declaration name, `Array<T>` carries `Array`. -/
def symbolName : TyExpr → Option String
  | TyExpr.iface n _ => some n
  | TyExpr.arrayOf _ => some "Array"
  | TyExpr.prim _ => none
  | TyExpr.nullT => none
  | TyExpr.dateT => none
  | TyExpr.strLit _ => none
  | TyExpr.numLit _ => none
  | TyExpr.union _ => none
  | TyExpr.anon _ => none

/-- Leading `[A-Z][a-zA-Z0-9_]*` identifier of a rendered type string
(Method 2 of the type-name detection, part_007 lines 693-701). -/
def leadingTypeName (s : List Char) : Option String :=
  match s with
  | [] => none
  | c :: rest =>
    if c.isUpper then
      some (String.mk (c :: rest.takeWhile (fun d => d.isAlpha || d.isDigit || d = '_')))
    else none

/-- Declared-type detection of part_007 lines 683-709: the symbol name when
it names a declaration, otherwise the leading capitalized identifier of the
rendered type string when that names a declaration. -/
def declaredTypeName (declNames : List String) (t : TyExpr) : Option String :=
  match symbolName t with
  | some n =>
    if declNames.contains n then some n
    else
      match leadingTypeName (renderTy t) with
      | some n2 => if declNames.contains n2 then some n2 else none
      | none => none
  | none =>
    match leadingTypeName (renderTy t) with
    | some n2 => if declNames.contains n2 then some n2 else none
    | none => none

/-- Primitive detection through type flags (part_007 lines 741-750). -/
def flagsPrim : TyExpr → Option String
  | TyExpr.prim p => some p
  | TyExpr.nullT => none
  | TyExpr.dateT => none
  | TyExpr.strLit _ => none
  | TyExpr.numLit _ => none
  | TyExpr.union _ => none
  | TyExpr.arrayOf _ => none
  | TyExpr.iface _ _ => none
  | TyExpr.anon _ => none

/-- `type.isStringLiteral()`. -/
def isStrLitTy : TyExpr → Bool
  | TyExpr.strLit _ => true
  | TyExpr.prim _ => false
  | TyExpr.nullT => false
  | TyExpr.dateT => false
  | TyExpr.numLit _ => false
  | TyExpr.union _ => false
  | TyExpr.arrayOf _ => false
  | TyExpr.iface _ _ => false
  | TyExpr.anon _ => false

/-- String-literal value (`unionType.value`), for enum collection. -/
def strLitVal : TyExpr → Option String
  | TyExpr.strLit s => some s
  | TyExpr.prim _ => none
  | TyExpr.nullT => none
  | TyExpr.dateT => none
  | TyExpr.numLit _ => none
  | TyExpr.union _ => none
  | TyExpr.arrayOf _ => none
  | TyExpr.iface _ _ => none
  | TyExpr.anon _ => none

/-- `type.isClassOrInterface() || type.getSymbol()?.getName() === 'Object'`
(part_007 line 815): true for interface types; anonymous object literal
types are not class-or-interface and their symbol is `__type`. -/
def isClassOrIface : TyExpr → Bool
  | TyExpr.iface _ _ => true
  | TyExpr.prim _ => false
  | TyExpr.nullT => false
  | TyExpr.dateT => false
  | TyExpr.strLit _ => false
  | TyExpr.numLit _ => false
  | TyExpr.union _ => false
  | TyExpr.arrayOf _ => false
  | TyExpr.anon _ => false

/-- `(type as any).typeArguments?.[0]` (present on `Array<T>`). -/
def typeArgsHead : TyExpr → Option TyExpr
  | TyExpr.arrayOf t => some t
  | TyExpr.prim _ => none
  | TyExpr.nullT => none
  | TyExpr.dateT => none
  | TyExpr.strLit _ => none
  | TyExpr.numLit _ => none
  | TyExpr.union _ => none
  | TyExpr.iface _ _ => none
  | TyExpr.anon _ => none

/-- Declared members visible through `type.getProperties()`. -/
def tyProps : TyExpr → List (String × Bool × TyExpr)
  | TyExpr.iface _ props => props
  | TyExpr.anon props => props
  | TyExpr.prim _ => []
  | TyExpr.nullT => []
  | TyExpr.dateT => []
  | TyExpr.strLit _ => []
  | TyExpr.numLit _ => []
  | TyExpr.union _ => []
  | TyExpr.arrayOf _ => []

/-- Association lookup in the declaration map. -/
def lookupTy : List (String × TyExpr) → String → Option TyExpr
  | [], _ => none
  | (k0, v) :: rest, k => if k0 = k then some v else lookupTy rest k

/-- Association update (`extractedSchemas[name] = schema`). -/
def jSet : List (String × Json) → String → Json → List (String × Json)
  | [], k, v => [(k, v)]
  | (k0, v0) :: rest, k, v =>
    if k0 = k then (k0, v) :: rest else (k0, v0) :: jSet rest k v

/-- Cycle-breaking reference node (part_007 line 719). -/
def refNode (n : String) : Json :=
  Json.obj [("$ref", Json.str ("#/components/schemas/" ++ n))]

/-- Number of declared names not yet visited — the quantity that shrinks on
every declared-type inlining step. -/
def countUnvisited (env : List (String × TyExpr)) (visited : List String) : Nat :=
  ((env.map Prod.fst).filter (fun n => !(visited.contains n))).length

theorem filter_imp_length_le {α : Type} (p q : α → Bool) (l : List α)
    (h : ∀ a, p a = true → q a = true) :
    (l.filter p).length ≤ (l.filter q).length := by
  induction l with
  | nil => simp
  | cons a rest ih =>
    by_cases hp : p a = true
    · rw [List.filter_cons_of_pos hp, List.filter_cons_of_pos (h a hp)]
      simpa using ih
    · rw [List.filter_cons_of_neg (by simpa using hp)]
      cases hq : q a
      · rw [List.filter_cons_of_neg (by simp [hq])]
        exact ih
      · rw [List.filter_cons_of_pos hq]
        exact le_trans ih (by simp)

theorem filter_not_contains_cons_lt (names visited : List String) (n : String)
    (hmem : n ∈ names) (hnv : n ∉ visited) :
    (names.filter (fun m => !((n :: visited).contains m))).length <
      (names.filter (fun m => !(visited.contains m))).length := by
  simp only [List.contains, List.elem_eq_mem, List.mem_cons, Bool.decide_or, Bool.not_or]
  induction names with
  | nil => cases hmem
  | cons a rest ih =>
    rw [List.filter_cons, List.filter_cons]
    by_cases ha : a = n
    · subst ha
      have h1 : (!decide (a = a) && !decide (a ∈ visited)) = false := by simp
      have h2 : (!decide (a ∈ visited)) = true := by simpa using hnv
      rw [h1, h2]
      have hle := filter_imp_length_le
        (fun m => !decide (m = a) && !decide (m ∈ visited))
        (fun m => !decide (m ∈ visited)) rest
        (by intro x hx; simp at hx ⊢; exact hx.2)
      rw [if_neg Bool.false_ne_true, if_pos rfl]
      simp only [List.length_cons]
      omega
    · have hmem' : n ∈ rest := by
        cases hmem with
        | head => exact absurd rfl ha
        | tail _ h => exact h
      have heq : (!decide (a = n) && !decide (a ∈ visited)) = (!decide (a ∈ visited)) := by
        simp [ha]
      rw [heq]
      by_cases hq : a ∈ visited
      · have h3 : (!decide (a ∈ visited)) = false := by simpa using hq
        rw [h3, if_neg Bool.false_ne_true, if_neg Bool.false_ne_true]
        exact ih hmem'
      · have h3 : (!decide (a ∈ visited)) = true := by simpa using hq
        rw [h3, if_pos rfl, if_pos rfl]
        simp only [List.length_cons]
        have := ih hmem'
        omega

theorem countUnvisited_cons_lt {env : List (String × TyExpr)}
    {visited : List String} {n : String}
    (hmem : n ∈ env.map Prod.fst)
    (hnv : visited.contains n = false) :
    countUnvisited env (n :: visited) < countUnvisited env visited := by
  unfold countUnvisited
  exact filter_not_contains_cons_lt (env.map Prod.fst) visited n hmem
    (by simpa using hnv)

theorem declaredTypeName_mem {declNames : List String} {t : TyExpr} {n : String}
    (h : declaredTypeName declNames t = some n) : n ∈ declNames := by
  unfold declaredTypeName at h
  split at h
  case h_1 m heq =>
    split at h
    case isTrue hc => cases h; simpa using hc
    case isFalse =>
      split at h
      case h_1 n2 heq2 =>
        split at h
        case isTrue hc => cases h; simpa using hc
        case isFalse => cases h
      case h_2 => cases h
  case h_2 =>
    split at h
    case h_1 n2 heq2 =>
      split at h
      case isTrue hc => cases h; simpa using hc
      case isFalse => cases h
    case h_2 => cases h

theorem typeArgsHead_sizeOf {t elem : TyExpr} (h : typeArgsHead t = some elem) :
    sizeOf elem < sizeOf t := by
  cases t <;> simp [typeArgsHead] at h
  case arrayOf e =>
    subst h
    first
      | (simp; omega)
      | simp
      | omega

mutual

/-- Embedding of `typeToJsonSchema` (part_007 lines 674-900): the
declared-type inlining gate (lines 683-735) — an already-extracted schema is
returned as a value copy, a name in the active visited set becomes a
`$ref` node, and otherwise the declaration is extracted now with the name
added to the visited set and the result cached — followed by the structural
classification in `typeToJsonSchemaCore`.  The `cache` is the mutated
`extractedSchemas` record, threaded through. -/
def typeToJsonSchema (env : List (String × TyExpr)) (cache : List (String × Json))
    (visited : List String) (t : TyExpr) (checkRefs : Bool) :
    Json × List (String × Json) :=
  if checkRefs then
    match hdecl : declaredTypeName (env.map Prod.fst) t with
    | some n =>
      match jGet cache n with
      | some s => (s, cache)
      | none =>
        if hv : visited.contains n then (refNode n, cache)
        else
          match lookupTy env n with
          | some decl =>
            let r := typeToJsonSchema env cache (n :: visited) decl false
            (r.1, jSet r.2 n r.1)
          | none => typeToJsonSchemaCore env cache visited t checkRefs
    | none => typeToJsonSchemaCore env cache visited t checkRefs
  else typeToJsonSchemaCore env cache visited t checkRefs
termination_by (countUnvisited env visited, sizeOf t, 2)
decreasing_by
  · apply Prod.Lex.left
    exact countUnvisited_cons_lt (declaredTypeName_mem hdecl) (by simpa using hv)
  · apply Prod.Lex.right
    apply Prod.Lex.right
    omega
  · apply Prod.Lex.right
    apply Prod.Lex.right
    omega
  · apply Prod.Lex.right
    apply Prod.Lex.right
    omega

/-- Structural classification of `typeToJsonSchema` (part_007 lines 737-795):
primitives by type flags, type-string fallbacks, the `Date` substring check,
then unions — all-string-literal unions become enums, any other non-empty
union resolves to its first member — then the remaining shapes in
`typeToJsonSchemaTail`. -/
def typeToJsonSchemaCore (env : List (String × TyExpr)) (cache : List (String × Json))
    (visited : List String) (t : TyExpr) (checkRefs : Bool) :
    Json × List (String × Json) :=
  match flagsPrim t with
  | some p => (Json.obj [("type", Json.str p)], cache)
  | none =>
    let ts := renderTy t
    if ts = "string".data || isStrLitTy t then
      (Json.obj [("type", Json.str "string")], cache)
    else if ts = "number".data || ts = "bigint".data then
      (Json.obj [("type", Json.str "number")], cache)
    else if ts = "boolean".data then
      (Json.obj [("type", Json.str "boolean")], cache)
    else if ts = "null".data then
      (Json.obj [("type", Json.str "null")], cache)
    else if hasSub "Date".data ts then
      (Json.obj [("type", Json.str "string"), ("format", Json.str "date-time")], cache)
    else
      match t with
      | TyExpr.union (u0 :: urest) =>
        if ((u0 :: urest).takeWhile isStrLitTy).length = (u0 :: urest).length then
          (Json.obj [("type", Json.str "string"),
            ("enum", Json.arr ((u0 :: urest).map
              (fun u => Json.str ((strLitVal u).getD ""))))], cache)
        else
          typeToJsonSchema env cache visited u0 checkRefs
      | TyExpr.union [] => typeToJsonSchemaTail env cache visited (TyExpr.union []) checkRefs
      | TyExpr.prim p => typeToJsonSchemaTail env cache visited (TyExpr.prim p) checkRefs
      | TyExpr.nullT => typeToJsonSchemaTail env cache visited TyExpr.nullT checkRefs
      | TyExpr.dateT => typeToJsonSchemaTail env cache visited TyExpr.dateT checkRefs
      | TyExpr.strLit s => typeToJsonSchemaTail env cache visited (TyExpr.strLit s) checkRefs
      | TyExpr.numLit n => typeToJsonSchemaTail env cache visited (TyExpr.numLit n) checkRefs
      | TyExpr.arrayOf e => typeToJsonSchemaTail env cache visited (TyExpr.arrayOf e) checkRefs
      | TyExpr.iface n props => typeToJsonSchemaTail env cache visited (TyExpr.iface n props) checkRefs
      | TyExpr.anon props => typeToJsonSchemaTail env cache visited (TyExpr.anon props) checkRefs
termination_by (countUnvisited env visited, sizeOf t, 1)
decreasing_by
  all_goals apply Prod.Lex.right
  · apply Prod.Lex.left
    simp
    omega
  all_goals apply Prod.Lex.right
  all_goals omega

/-- Remaining shapes of `typeToJsonSchema` (part_007 lines 797-900): the
array check (`Array` symbol or `[]` in the rendered string), interface
property enumeration with per-property visited-set copies, number literals,
and the untyped-object default.  (The later union-nullable, second array and
string-literal branches of the source are unreachable, having returned
earlier.) -/
def typeToJsonSchemaTail (env : List (String × TyExpr)) (cache : List (String × Json))
    (visited : List String) (t : TyExpr) (checkRefs : Bool) :
    Json × List (String × Json) :=
  if symbolName t == some "Array" || hasSub "[]".data (renderTy t) then
    match hta : typeArgsHead t with
    | some elem =>
      let r := typeToJsonSchema env cache visited elem checkRefs
      (Json.obj [("type", Json.str "array"), ("items", r.1)], r.2)
    | none => (Json.obj [("type", Json.str "array"), ("items", Json.obj [])], cache)
  else
    match t with
    | TyExpr.iface _ props =>
      let r := typeToJsonSchemaProps env cache visited props
      let base := [("type", Json.str "object"), ("properties", Json.obj r.1),
                   ("additionalProperties", Json.bool false)]
      (Json.obj (if r.2.1.isEmpty then base
                 else base ++ [("required", Json.arr (r.2.1.map Json.str))]), r.2.2)
    | TyExpr.numLit n =>
      (Json.obj [("type", Json.str "number"), ("enum", Json.arr [Json.num n])], cache)
    | TyExpr.prim _ => (Json.obj [("type", Json.str "object")], cache)
    | TyExpr.nullT => (Json.obj [("type", Json.str "object")], cache)
    | TyExpr.dateT => (Json.obj [("type", Json.str "object")], cache)
    | TyExpr.strLit _ => (Json.obj [("type", Json.str "object")], cache)
    | TyExpr.union _ => (Json.obj [("type", Json.str "object")], cache)
    | TyExpr.arrayOf _ => (Json.obj [("type", Json.str "object")], cache)
    | TyExpr.anon _ => (Json.obj [("type", Json.str "object")], cache)
termination_by (countUnvisited env visited, sizeOf t, 0)
decreasing_by
  · apply Prod.Lex.right
    apply Prod.Lex.left
    exact typeArgsHead_sizeOf hta
  · apply Prod.Lex.right
    apply Prod.Lex.left
    first
      | (simp; omega)
      | simp
      | omega

/-- Property enumeration of part_007 lines 822-848: each property type is
resolved with `checkForTypeReferences = true` and a fresh copy of the visited
set (`new Set(visitedTypes)`, identical in content), the cache threads left
to right, and non-optional properties are appended to the `required` list. -/
def typeToJsonSchemaProps (env : List (String × TyExpr)) (cache : List (String × Json))
    (visited : List String) (props : List (String × Bool × TyExpr)) :
    List (String × Json) × List String × List (String × Json) :=
  match props with
  | [] => ([], [], cache)
  | (pname, opt, pty) :: rest =>
    let r := typeToJsonSchema env cache visited pty true
    let rr := typeToJsonSchemaProps env r.2 visited rest
    ((pname, r.1) :: rr.1, (if opt then rr.2.1 else pname :: rr.2.1), rr.2.2)
termination_by (countUnvisited env visited, sizeOf props, 3)
decreasing_by
  all_goals apply Prod.Lex.right
  all_goals apply Prod.Lex.left
  all_goals
    first
      | (simp; omega)
      | simp
      | omega

end

/-- Second pass of `loadTypesFromDirectory` (part_007 lines 584-618): each
declaration is extracted with a fresh visited set already containing its own
name (`visitedSet.add(node.name.text)`) and `checkForTypeReferences = false`
for the declaration type itself, and the result is stored under the
declaration's name. -/
def loadTypes (env : List (String × TyExpr)) : List (String × Json) :=
  env.foldl (fun cache d =>
    let r := typeToJsonSchema env cache [d.1] d.2 false
    jSet r.2 d.1 r.1) []

/-- Absence of a `:\w+` token: no `:` immediately followed by a word
character anywhere in the string (the canonical-path condition of the
path-parameter rewrite). -/
def noParamTok : List Char → Bool
  | [] => true
  | [_] => true
  | c :: d :: rest =>
    if c = ':' && isWordCh d then false else noParamTok (d :: rest)

/-! ### Theorems.  General helpers first. -/

theorem exceptBind_ok {eps alpha beta : Type} (a : alpha) (f : alpha → Except eps beta) :
    (Except.ok a >>= f : Except eps beta) = f a := rfl

theorem exceptPure {eps alpha : Type} (a : alpha) :
    (pure a : Except eps alpha) = Except.ok a := rfl

theorem exceptBind_ok_iff {eps alpha beta : Type} (x : Except eps alpha)
    (f : alpha → Except eps beta) (c : beta) :
    (x >>= f) = Except.ok c ↔ ∃ a, x = Except.ok a ∧ f a = Except.ok c := by
  cases x with
  | ok a =>
    constructor
    · intro h
      exact ⟨a, rfl, h⟩
    · rintro ⟨b, hb, hfb⟩
      cases hb
      exact hfb
  | error e =>
    constructor
    · intro h
      cases h
    · rintro ⟨b, hb, hfb⟩
      cases hb

theorem jGet_optField_self (k : String) (v : Option Json) (rest : List (String × Json)) :
    jGet (optField k v ++ rest) k =
      match v with
      | some j => some j
      | none => jGet rest k := by
  cases v <;> simp [optField, jGet]

theorem jGet_optField_other {k0 k : String} (h : k0 ≠ k) (v : Option Json)
    (rest : List (String × Json)) :
    jGet (optField k0 v ++ rest) k = jGet rest k := by
  cases v <;> simp [optField, jGet, h]

theorem jGet_parts_fType (p : CleanParts) : jGet (partsToFields p) "type" = p.fType := by
  rw [partsToFields]
  rw [jGet_optField_self]
  cases p.fType with
  | some j => rfl
  | none =>
    rw [jGet_optField_other (by decide),
        jGet_optField_other (by decide),
        jGet_optField_other (by decide),
        jGet_optField_other (by decide),
        jGet_optField_other (by decide),
        jGet_optField_other (by decide),
        jGet_optField_other (by decide),
        jGet_optField_other (by decide),
        jGet_optField_other (by decide),
        jGet_optField_other (by decide),
        jGet_optField_other (by decide),
        jGet_optField_other (by decide),
        jGet_optField_other (by decide),
        jGet_optField_other (by decide),
        jGet_optField_other (by decide),
        jGet_optField_other (by decide),
        jGet_optField_other (by decide)]
    rfl

theorem jGet_parts_fProps (p : CleanParts) : jGet (partsToFields p) "properties" = p.fProps := by
  rw [partsToFields]
  rw [jGet_optField_other (by decide),
      jGet_optField_self]
  cases p.fProps with
  | some j => rfl
  | none =>
    rw [jGet_optField_other (by decide),
        jGet_optField_other (by decide),
        jGet_optField_other (by decide),
        jGet_optField_other (by decide),
        jGet_optField_other (by decide),
        jGet_optField_other (by decide),
        jGet_optField_other (by decide),
        jGet_optField_other (by decide),
        jGet_optField_other (by decide),
        jGet_optField_other (by decide),
        jGet_optField_other (by decide),
        jGet_optField_other (by decide),
        jGet_optField_other (by decide),
        jGet_optField_other (by decide),
        jGet_optField_other (by decide),
        jGet_optField_other (by decide)]
    rfl

theorem jGet_parts_fRequired (p : CleanParts) : jGet (partsToFields p) "required" = p.fRequired := by
  rw [partsToFields]
  rw [jGet_optField_other (by decide),
      jGet_optField_other (by decide),
      jGet_optField_self]
  cases p.fRequired with
  | some j => rfl
  | none =>
    rw [jGet_optField_other (by decide),
        jGet_optField_other (by decide),
        jGet_optField_other (by decide),
        jGet_optField_other (by decide),
        jGet_optField_other (by decide),
        jGet_optField_other (by decide),
        jGet_optField_other (by decide),
        jGet_optField_other (by decide),
        jGet_optField_other (by decide),
        jGet_optField_other (by decide),
        jGet_optField_other (by decide),
        jGet_optField_other (by decide),
        jGet_optField_other (by decide),
        jGet_optField_other (by decide),
        jGet_optField_other (by decide)]
    rfl

theorem jGet_parts_fItems (p : CleanParts) : jGet (partsToFields p) "items" = p.fItems := by
  rw [partsToFields]
  rw [jGet_optField_other (by decide),
      jGet_optField_other (by decide),
      jGet_optField_other (by decide),
      jGet_optField_self]
  cases p.fItems with
  | some j => rfl
  | none =>
    rw [jGet_optField_other (by decide),
        jGet_optField_other (by decide),
        jGet_optField_other (by decide),
        jGet_optField_other (by decide),
        jGet_optField_other (by decide),
        jGet_optField_other (by decide),
        jGet_optField_other (by decide),
        jGet_optField_other (by decide),
        jGet_optField_other (by decide),
        jGet_optField_other (by decide),
        jGet_optField_other (by decide),
        jGet_optField_other (by decide),
        jGet_optField_other (by decide),
        jGet_optField_other (by decide)]
    rfl

theorem jGet_parts_fFormat (p : CleanParts) : jGet (partsToFields p) "format" = p.fFormat := by
  rw [partsToFields]
  rw [jGet_optField_other (by decide),
      jGet_optField_other (by decide),
      jGet_optField_other (by decide),
      jGet_optField_other (by decide),
      jGet_optField_self]
  cases p.fFormat with
  | some j => rfl
  | none =>
    rw [jGet_optField_other (by decide),
        jGet_optField_other (by decide),
        jGet_optField_other (by decide),
        jGet_optField_other (by decide),
        jGet_optField_other (by decide),
        jGet_optField_other (by decide),
        jGet_optField_other (by decide),
        jGet_optField_other (by decide),
        jGet_optField_other (by decide),
        jGet_optField_other (by decide),
        jGet_optField_other (by decide),
        jGet_optField_other (by decide),
        jGet_optField_other (by decide)]
    rfl

theorem jGet_parts_fPattern (p : CleanParts) : jGet (partsToFields p) "pattern" = p.fPattern := by
  rw [partsToFields]
  rw [jGet_optField_other (by decide),
      jGet_optField_other (by decide),
      jGet_optField_other (by decide),
      jGet_optField_other (by decide),
      jGet_optField_other (by decide),
      jGet_optField_self]
  cases p.fPattern with
  | some j => rfl
  | none =>
    rw [jGet_optField_other (by decide),
        jGet_optField_other (by decide),
        jGet_optField_other (by decide),
        jGet_optField_other (by decide),
        jGet_optField_other (by decide),
        jGet_optField_other (by decide),
        jGet_optField_other (by decide),
        jGet_optField_other (by decide),
        jGet_optField_other (by decide),
        jGet_optField_other (by decide),
        jGet_optField_other (by decide),
        jGet_optField_other (by decide)]
    rfl

theorem jGet_parts_fMinLength (p : CleanParts) : jGet (partsToFields p) "minLength" = p.fMinLength := by
  rw [partsToFields]
  rw [jGet_optField_other (by decide),
      jGet_optField_other (by decide),
      jGet_optField_other (by decide),
      jGet_optField_other (by decide),
      jGet_optField_other (by decide),
      jGet_optField_other (by decide),
      jGet_optField_self]
  cases p.fMinLength with
  | some j => rfl
  | none =>
    rw [jGet_optField_other (by decide),
        jGet_optField_other (by decide),
        jGet_optField_other (by decide),
        jGet_optField_other (by decide),
        jGet_optField_other (by decide),
        jGet_optField_other (by decide),
        jGet_optField_other (by decide),
        jGet_optField_other (by decide),
        jGet_optField_other (by decide),
        jGet_optField_other (by decide),
        jGet_optField_other (by decide)]
    rfl

theorem jGet_parts_fMaxLength (p : CleanParts) : jGet (partsToFields p) "maxLength" = p.fMaxLength := by
  rw [partsToFields]
  rw [jGet_optField_other (by decide),
      jGet_optField_other (by decide),
      jGet_optField_other (by decide),
      jGet_optField_other (by decide),
      jGet_optField_other (by decide),
      jGet_optField_other (by decide),
      jGet_optField_other (by decide),
      jGet_optField_self]
  cases p.fMaxLength with
  | some j => rfl
  | none =>
    rw [jGet_optField_other (by decide),
        jGet_optField_other (by decide),
        jGet_optField_other (by decide),
        jGet_optField_other (by decide),
        jGet_optField_other (by decide),
        jGet_optField_other (by decide),
        jGet_optField_other (by decide),
        jGet_optField_other (by decide),
        jGet_optField_other (by decide),
        jGet_optField_other (by decide)]
    rfl

theorem jGet_parts_fMinimum (p : CleanParts) : jGet (partsToFields p) "minimum" = p.fMinimum := by
  rw [partsToFields]
  rw [jGet_optField_other (by decide),
      jGet_optField_other (by decide),
      jGet_optField_other (by decide),
      jGet_optField_other (by decide),
      jGet_optField_other (by decide),
      jGet_optField_other (by decide),
      jGet_optField_other (by decide),
      jGet_optField_other (by decide),
      jGet_optField_self]
  cases p.fMinimum with
  | some j => rfl
  | none =>
    rw [jGet_optField_other (by decide),
        jGet_optField_other (by decide),
        jGet_optField_other (by decide),
        jGet_optField_other (by decide),
        jGet_optField_other (by decide),
        jGet_optField_other (by decide),
        jGet_optField_other (by decide),
        jGet_optField_other (by decide),
        jGet_optField_other (by decide)]
    rfl

theorem jGet_parts_fMaximum (p : CleanParts) : jGet (partsToFields p) "maximum" = p.fMaximum := by
  rw [partsToFields]
  rw [jGet_optField_other (by decide),
      jGet_optField_other (by decide),
      jGet_optField_other (by decide),
      jGet_optField_other (by decide),
      jGet_optField_other (by decide),
      jGet_optField_other (by decide),
      jGet_optField_other (by decide),
      jGet_optField_other (by decide),
      jGet_optField_other (by decide),
      jGet_optField_self]
  cases p.fMaximum with
  | some j => rfl
  | none =>
    rw [jGet_optField_other (by decide),
        jGet_optField_other (by decide),
        jGet_optField_other (by decide),
        jGet_optField_other (by decide),
        jGet_optField_other (by decide),
        jGet_optField_other (by decide),
        jGet_optField_other (by decide),
        jGet_optField_other (by decide)]
    rfl

theorem jGet_parts_fEnum (p : CleanParts) : jGet (partsToFields p) "enum" = p.fEnum := by
  rw [partsToFields]
  rw [jGet_optField_other (by decide),
      jGet_optField_other (by decide),
      jGet_optField_other (by decide),
      jGet_optField_other (by decide),
      jGet_optField_other (by decide),
      jGet_optField_other (by decide),
      jGet_optField_other (by decide),
      jGet_optField_other (by decide),
      jGet_optField_other (by decide),
      jGet_optField_other (by decide),
      jGet_optField_self]
  cases p.fEnum with
  | some j => rfl
  | none =>
    rw [jGet_optField_other (by decide),
        jGet_optField_other (by decide),
        jGet_optField_other (by decide),
        jGet_optField_other (by decide),
        jGet_optField_other (by decide),
        jGet_optField_other (by decide),
        jGet_optField_other (by decide)]
    rfl

theorem jGet_parts_fDefault (p : CleanParts) : jGet (partsToFields p) "default" = p.fDefault := by
  rw [partsToFields]
  rw [jGet_optField_other (by decide),
      jGet_optField_other (by decide),
      jGet_optField_other (by decide),
      jGet_optField_other (by decide),
      jGet_optField_other (by decide),
      jGet_optField_other (by decide),
      jGet_optField_other (by decide),
      jGet_optField_other (by decide),
      jGet_optField_other (by decide),
      jGet_optField_other (by decide),
      jGet_optField_other (by decide),
      jGet_optField_self]
  cases p.fDefault with
  | some j => rfl
  | none =>
    rw [jGet_optField_other (by decide),
        jGet_optField_other (by decide),
        jGet_optField_other (by decide),
        jGet_optField_other (by decide),
        jGet_optField_other (by decide),
        jGet_optField_other (by decide)]
    rfl

theorem jGet_parts_fDescription (p : CleanParts) : jGet (partsToFields p) "description" = p.fDescription := by
  rw [partsToFields]
  rw [jGet_optField_other (by decide),
      jGet_optField_other (by decide),
      jGet_optField_other (by decide),
      jGet_optField_other (by decide),
      jGet_optField_other (by decide),
      jGet_optField_other (by decide),
      jGet_optField_other (by decide),
      jGet_optField_other (by decide),
      jGet_optField_other (by decide),
      jGet_optField_other (by decide),
      jGet_optField_other (by decide),
      jGet_optField_other (by decide),
      jGet_optField_self]
  cases p.fDescription with
  | some j => rfl
  | none =>
    rw [jGet_optField_other (by decide),
        jGet_optField_other (by decide),
        jGet_optField_other (by decide),
        jGet_optField_other (by decide),
        jGet_optField_other (by decide)]
    rfl

theorem jGet_parts_fExample (p : CleanParts) : jGet (partsToFields p) "example" = p.fExample := by
  rw [partsToFields]
  rw [jGet_optField_other (by decide),
      jGet_optField_other (by decide),
      jGet_optField_other (by decide),
      jGet_optField_other (by decide),
      jGet_optField_other (by decide),
      jGet_optField_other (by decide),
      jGet_optField_other (by decide),
      jGet_optField_other (by decide),
      jGet_optField_other (by decide),
      jGet_optField_other (by decide),
      jGet_optField_other (by decide),
      jGet_optField_other (by decide),
      jGet_optField_other (by decide),
      jGet_optField_self]
  cases p.fExample with
  | some j => rfl
  | none =>
    rw [jGet_optField_other (by decide),
        jGet_optField_other (by decide),
        jGet_optField_other (by decide),
        jGet_optField_other (by decide)]
    rfl

theorem jGet_parts_fNullable (p : CleanParts) : jGet (partsToFields p) "nullable" = p.fNullable := by
  rw [partsToFields]
  rw [jGet_optField_other (by decide),
      jGet_optField_other (by decide),
      jGet_optField_other (by decide),
      jGet_optField_other (by decide),
      jGet_optField_other (by decide),
      jGet_optField_other (by decide),
      jGet_optField_other (by decide),
      jGet_optField_other (by decide),
      jGet_optField_other (by decide),
      jGet_optField_other (by decide),
      jGet_optField_other (by decide),
      jGet_optField_other (by decide),
      jGet_optField_other (by decide),
      jGet_optField_other (by decide),
      jGet_optField_self]
  cases p.fNullable with
  | some j => rfl
  | none =>
    rw [jGet_optField_other (by decide),
        jGet_optField_other (by decide),
        jGet_optField_other (by decide)]
    rfl

theorem jGet_parts_fOneOf (p : CleanParts) : jGet (partsToFields p) "oneOf" = p.fOneOf := by
  rw [partsToFields]
  rw [jGet_optField_other (by decide),
      jGet_optField_other (by decide),
      jGet_optField_other (by decide),
      jGet_optField_other (by decide),
      jGet_optField_other (by decide),
      jGet_optField_other (by decide),
      jGet_optField_other (by decide),
      jGet_optField_other (by decide),
      jGet_optField_other (by decide),
      jGet_optField_other (by decide),
      jGet_optField_other (by decide),
      jGet_optField_other (by decide),
      jGet_optField_other (by decide),
      jGet_optField_other (by decide),
      jGet_optField_other (by decide),
      jGet_optField_self]
  cases p.fOneOf with
  | some j => rfl
  | none =>
    rw [jGet_optField_other (by decide),
        jGet_optField_other (by decide)]
    rfl

theorem jGet_parts_fAnyOf (p : CleanParts) : jGet (partsToFields p) "anyOf" = p.fAnyOf := by
  rw [partsToFields]
  rw [jGet_optField_other (by decide),
      jGet_optField_other (by decide),
      jGet_optField_other (by decide),
      jGet_optField_other (by decide),
      jGet_optField_other (by decide),
      jGet_optField_other (by decide),
      jGet_optField_other (by decide),
      jGet_optField_other (by decide),
      jGet_optField_other (by decide),
      jGet_optField_other (by decide),
      jGet_optField_other (by decide),
      jGet_optField_other (by decide),
      jGet_optField_other (by decide),
      jGet_optField_other (by decide),
      jGet_optField_other (by decide),
      jGet_optField_other (by decide),
      jGet_optField_self]
  cases p.fAnyOf with
  | some j => rfl
  | none =>
    rw [jGet_optField_other (by decide)]
    rfl

theorem jGet_parts_fAllOf (p : CleanParts) : jGet (partsToFields p) "allOf" = p.fAllOf := by
  rw [partsToFields]
  rw [jGet_optField_other (by decide),
      jGet_optField_other (by decide),
      jGet_optField_other (by decide),
      jGet_optField_other (by decide),
      jGet_optField_other (by decide),
      jGet_optField_other (by decide),
      jGet_optField_other (by decide),
      jGet_optField_other (by decide),
      jGet_optField_other (by decide),
      jGet_optField_other (by decide),
      jGet_optField_other (by decide),
      jGet_optField_other (by decide),
      jGet_optField_other (by decide),
      jGet_optField_other (by decide),
      jGet_optField_other (by decide),
      jGet_optField_other (by decide),
      jGet_optField_other (by decide),
      jGet_optField_self]
  cases p.fAllOf with
  | some j => rfl
  | none =>
    rfl

theorem typeOut_val_stable {u : Json} (hOk : typeElemOk u = true) :
    typeOut (some u) = (some u, none, false) := by
  cases u with
  | arr ys =>
    have h : ys.any Json.isNullLit = false := by simpa [typeElemOk] using hOk
    simp [typeOut, h]
  | null => rfl
  | bool b => rfl
  | num n => rfl
  | str s => rfl
  | obj fs => rfl

theorem typeElemOk_of_mem_filter {ts : List Json} {u : Json}
    (hall : ts.all typeElemOk = true)
    (hmem : u ∈ ts.filter (fun t => !(Json.isNullLit t))) : typeElemOk u = true := by
  have := List.mem_filter.mp hmem
  exact List.all_eq_true.mp hall u this.1

theorem typeOut_arr_one {ts : List Json} {u : Json}
    (hn : ts.any Json.isNullLit = true)
    (hf : ts.filter (fun t => !(Json.isNullLit t)) = [u]) :
    typeOut (some (Json.arr ts)) = (some u, none, true) := by
  simp [typeOut, hn, hf]

theorem typeOut_arr_many {ts : List Json}
    (hn : ts.any Json.isNullLit = true)
    (h1 : (ts.filter (fun t => !(Json.isNullLit t))).length ≠ 1)
    (h2 : 1 < (ts.filter (fun t => !(Json.isNullLit t))).length) :
    typeOut (some (Json.arr ts)) =
      (none,
       some (Json.arr ((ts.filter (fun t => !(Json.isNullLit t))).map
          (fun t => Json.obj [("type", t)]) ++ [Json.obj [("type", Json.str "null")]])),
       false) := by
  simp [typeOut, hn, h1, h2]

theorem typeOut_arr_else {ts : List Json}
    (h : ¬(ts.any Json.isNullLit = true ∧
      ((ts.filter (fun t => !(Json.isNullLit t))).length = 1 ∨
        1 < (ts.filter (fun t => !(Json.isNullLit t))).length))) :
    typeOut (some (Json.arr ts)) = (some (Json.arr ts), none, false) := by
  cases hn : ts.any Json.isNullLit with
  | false => simp [typeOut, hn]
  | true =>
    have h1 : ¬((ts.filter (fun t => !(Json.isNullLit t))).length = 1) :=
      fun hl => h ⟨hn, Or.inl hl⟩
    have h2 : ¬(1 < (ts.filter (fun t => !(Json.isNullLit t))).length) :=
      fun hl => h ⟨hn, Or.inr hl⟩
    simp [typeOut, hn, h1, h2]

/-- Pass-two behavior of the `type` normalization: on a `typeKeyOk` input the
emitted `type` value re-normalizes to itself, producing no `oneOf` and no
`nullable`. -/
theorem typeOut_pass2 {o : Option Json} (hok : typeKeyOk o = true) :
    typeOut (typeOut o).1 = ((typeOut o).1, none, false) := by
  cases o with
  | none => rfl
  | some t =>
    cases t with
    | arr ts =>
      have hall : ts.all typeElemOk = true := by simpa [typeKeyOk] using hok
      cases hn : ts.any Json.isNullLit with
      | true =>
        by_cases h1 : (ts.filter (fun t => !(Json.isNullLit t))).length = 1
        · obtain ⟨u, hu⟩ := List.length_eq_one.mp h1
          rw [typeOut_arr_one hn hu]
          have hOk : typeElemOk u = true :=
            typeElemOk_of_mem_filter hall (by rw [hu]; exact List.mem_singleton.mpr rfl)
          exact typeOut_val_stable hOk
        · by_cases h2 : 1 < (ts.filter (fun t => !(Json.isNullLit t))).length
          · rw [typeOut_arr_many hn h1 h2]
            rfl
          · have helse : typeOut (some (Json.arr ts)) = (some (Json.arr ts), none, false) :=
              typeOut_arr_else (by
                rintro ⟨_, hd⟩
                cases hd with
                | inl hl => exact h1 hl
                | inr hl => exact h2 hl)
            rw [helse]
            exact helse
      | false =>
        have helse : typeOut (some (Json.arr ts)) = (some (Json.arr ts), none, false) :=
          typeOut_arr_else (by rintro ⟨hc, _⟩; rw [hn] at hc; cases hc)
        rw [helse]
        exact helse
    | null => rfl
    | bool b => rfl
    | num n => rfl
    | str s => rfl
    | obj fs => rfl

theorem enumOut_pass2 (o : Option Json) :
    enumOut (enumOut o).1 = ((enumOut o).1, false) := by
  cases o with
  | none => rfl
  | some v =>
    cases v with
    | arr vs =>
      cases hn : vs.any Json.isNullVal with
      | true =>
        have h1 : enumOut (some (Json.arr vs)) =
            (some (Json.arr (vs.filter (fun v => !(Json.isNullVal v)))), true) := by
          simp [enumOut, hn]
        rw [h1]
        have hno : (vs.filter (fun v => !(Json.isNullVal v))).any Json.isNullVal = false := by
          rw [Bool.eq_false_iff]
          intro hc
          obtain ⟨x, hx, hvx⟩ := List.any_eq_true.mp hc
          have := (List.mem_filter.mp hx).2
          rw [hvx] at this
          cases this
        simp [enumOut, hno]
      | false =>
        have h1 : enumOut (some (Json.arr vs)) = (some (Json.arr vs), false) := by
          simp [enumOut, hn]
        rw [h1]
        exact h1
    | null => rfl
    | bool b => rfl
    | num n => rfl
    | str s => rfl
    | obj fs => rfl

theorem requiredOut_stable (o : Option Json) :
    requiredOut (requiredOut o) = requiredOut o := by
  cases o with
  | none => rfl
  | some v => cases v <;> rfl

theorem nullableOut_false_false (nv : Option Json) : nullableOut nv false false = nv := by
  cases nv <;> simp [nullableOut]

theorem TypeOkPairs_mem {l : List (String × Json)} {k : String} {v : Json}
    (h : TypeOkPairs l = true) (hmem : (k, v) ∈ l) : TypeOk v = true := by
  induction l with
  | nil => cases hmem
  | cons p rest ih =>
    obtain ⟨k0, v0⟩ := p
    rw [TypeOkPairs, Bool.and_eq_true] at h
    cases hmem with
    | head => exact h.1
    | tail _ hm => exact ih h.2 hm

theorem TypeOkList_mem {l : List Json} {v : Json}
    (h : TypeOkList l = true) (hmem : v ∈ l) : TypeOk v = true := by
  induction l with
  | nil => cases hmem
  | cons x rest ih =>
    rw [TypeOkList, Bool.and_eq_true] at h
    cases hmem with
    | head => exact h.1
    | tail _ hm => exact ih h.2 hm

theorem TypeOk_obj_parts {fields : List (String × Json)}
    (h : TypeOk (Json.obj fields) = true) :
    typeKeyOk (jGet fields "type") = true ∧
    propsKeyOk (jGet fields "properties") = true ∧
    itemsKeyOk (jGet fields "items") = true ∧
    ofKeyOk (jGet fields "oneOf") = true ∧
    ofKeyOk (jGet fields "anyOf") = true ∧
    ofKeyOk (jGet fields "allOf") = true := by
  rw [TypeOk] at h
  simp only [Bool.and_eq_true] at h
  exact ⟨h.1, h.2.1, h.2.2.1, h.2.2.2.1, h.2.2.2.2.1, h.2.2.2.2.2⟩

theorem cleanPairs_of_ptwise {l : List (String × Json)}
    (h : ∀ k v, (k, v) ∈ l → cleanJsonSchema v = Except.ok v) :
    cleanPairs l = Except.ok l := by
  induction l with
  | nil => rw [cleanPairs]
  | cons p rest ih =>
    obtain ⟨k, v⟩ := p
    rw [cleanPairs, h k v (List.mem_cons_self _ _), exceptBind_ok,
        ih (fun k2 v2 hm => h k2 v2 (List.mem_cons_of_mem _ hm)), exceptBind_ok]

theorem cleanList_of_ptwise {l : List Json}
    (h : ∀ v ∈ l, cleanJsonSchema v = Except.ok v) :
    cleanList l = Except.ok l := by
  induction l with
  | nil => rw [cleanList]
  | cons x rest ih =>
    rw [cleanList, h x (List.mem_cons_self _ _), exceptBind_ok,
        ih (fun v hm => h v (List.mem_cons_of_mem _ hm)), exceptBind_ok]

theorem cleanList_mem {xs cs : List Json} (h : cleanList xs = Except.ok cs) :
    ∀ c ∈ cs, ∃ x ∈ xs, cleanJsonSchema x = Except.ok c := by
  induction xs generalizing cs with
  | nil =>
    rw [cleanList] at h
    cases h
    intro c hc
    cases hc
  | cons x rest ih =>
    rw [cleanList] at h
    rw [exceptBind_ok_iff] at h
    obtain ⟨c0, hc0, h⟩ := h
    rw [exceptBind_ok_iff] at h
    obtain ⟨cs0, hcs0, h⟩ := h
    cases h
    intro c hc
    cases hc with
    | head => exact ⟨x, (List.mem_cons_self _ _), hc0⟩
    | tail _ hm =>
      obtain ⟨x2, hx2, hcx2⟩ := ih hcs0 c hm
      exact ⟨x2, List.mem_cons_of_mem _ hx2, hcx2⟩

theorem cleanPairs_stable {l cs : List (String × Json)}
    (h : cleanPairs l = Except.ok cs)
    (hok : TypeOkPairs l = true)
    (IH : ∀ k v, (k, v) ∈ l → TypeOk v = true → ∀ c, cleanJsonSchema v = Except.ok c →
      cleanJsonSchema c = Except.ok c) :
    cleanPairs cs = Except.ok cs := by
  induction l generalizing cs with
  | nil =>
    rw [cleanPairs] at h
    cases h
    rw [cleanPairs]
  | cons p rest ih =>
    obtain ⟨k, v⟩ := p
    rw [cleanPairs] at h
    rw [exceptBind_ok_iff] at h
    obtain ⟨c0, hc0, h⟩ := h
    rw [exceptBind_ok_iff] at h
    obtain ⟨cs0, hcs0, h⟩ := h
    cases h
    rw [TypeOkPairs, Bool.and_eq_true] at hok
    have hc0stable : cleanJsonSchema c0 = Except.ok c0 :=
      IH k v (List.mem_cons_self _ _) hok.1 c0 hc0
    have hrest : cleanPairs cs0 = Except.ok cs0 :=
      ih hcs0 hok.2 (fun k2 v2 hm => IH k2 v2 (List.mem_cons_of_mem _ hm))
    rw [cleanPairs, hc0stable, exceptBind_ok, hrest, exceptBind_ok]

theorem cleanList_stable {l cs : List Json}
    (h : cleanList l = Except.ok cs)
    (hok : TypeOkList l = true)
    (IH : ∀ v ∈ l, TypeOk v = true → ∀ c, cleanJsonSchema v = Except.ok c →
      cleanJsonSchema c = Except.ok c) :
    cleanList cs = Except.ok cs := by
  induction l generalizing cs with
  | nil =>
    rw [cleanList] at h
    cases h
    rw [cleanList]
  | cons x rest ih =>
    rw [cleanList] at h
    rw [exceptBind_ok_iff] at h
    obtain ⟨c0, hc0, h⟩ := h
    rw [exceptBind_ok_iff] at h
    obtain ⟨cs0, hcs0, h⟩ := h
    cases h
    rw [TypeOkList, Bool.and_eq_true] at hok
    have hc0stable : cleanJsonSchema c0 = Except.ok c0 :=
      IH x (List.mem_cons_self _ _) hok.1 c0 hc0
    have hrest : cleanList cs0 = Except.ok cs0 :=
      ih hcs0 hok.2 (fun v hm => IH v (List.mem_cons_of_mem _ hm))
    rw [cleanList, hc0stable, exceptBind_ok, hrest, exceptBind_ok]

theorem enumFrom_snd_mem {α : Type} :
    ∀ (n : Nat) (l : List α) (p : Nat × α), p ∈ l.enumFrom n → p.2 ∈ l := by
  intro n l
  induction l generalizing n with
  | nil => intro p h; cases h
  | cons x xs ih =>
    intro p h
    rw [List.enumFrom] at h
    cases h with
    | head => exact List.mem_cons_self _ _
    | tail _ hm => exact List.mem_cons_of_mem _ (ih (n + 1) p hm)

theorem enum_snd_mem {α : Type} (l : List α) (p : Nat × α) (h : p ∈ l.enum) : p.2 ∈ l :=
  enumFrom_snd_mem 0 l p h

theorem clean_str_id (s : String) : cleanJsonSchema (Json.str s) = Except.ok (Json.str s) := by
  rw [cleanJsonSchema]

theorem cleanPropsKey_stable (N : Nat) (o po : Option Json)
    (hN : sizeOf o ≤ N)
    (IH : ∀ x, sizeOf x < N → TypeOk x = true → ∀ c, cleanJsonSchema x = Except.ok c →
      cleanJsonSchema c = Except.ok c)
    (hok : propsKeyOk o = true)
    (h : cleanPropsKey o = Except.ok po) :
    cleanPropsKey po = Except.ok po := by
  cases o with
  | none =>
    rw [cleanPropsKey] at h
    cases h
    rw [cleanPropsKey]
  | some v =>
    cases v with
    | obj props =>
      rw [cleanPropsKey] at h
      rw [exceptBind_ok_iff] at h
      obtain ⟨cs, hcs, h⟩ := h
      cases h
      rw [cleanPropsKey]
      have hok2 : TypeOkPairs props = true := by rw [propsKeyOk] at hok; exact hok
      have hsz : ∀ k v, (k, v) ∈ props → sizeOf v < N := by
        intro k v hm
        have h1 := List.sizeOf_lt_of_mem hm
        simp at hN h1
        omega
      have hstable := cleanPairs_stable hcs hok2
        (fun k v hm ht c hc => IH v (hsz k v hm) ht c hc)
      rw [hstable, exceptBind_ok]
    | arr xs =>
      rw [cleanPropsKey] at h
      rw [exceptBind_ok_iff] at h
      obtain ⟨cs, hcs, h⟩ := h
      cases h
      rw [cleanPropsKey]
      have hok2 : TypeOkList xs = true := by rw [propsKeyOk] at hok; exact hok
      have hsz : ∀ x ∈ xs, sizeOf x < N := by
        intro x hm
        have h1 := List.sizeOf_lt_of_mem hm
        simp at hN h1
        omega
      have hpt : ∀ k c, (k, c) ∈ cs.enum.map (fun q => (toString q.1, q.2)) →
          cleanJsonSchema c = Except.ok c := by
        intro k c hm
        obtain ⟨q, hq, hqe⟩ := List.mem_map.mp hm
        have hc : q.2 = c := congrArg Prod.snd hqe
        have hcmem : c ∈ cs := hc ▸ enum_snd_mem cs q hq
        obtain ⟨x, hx, hcx⟩ := cleanList_mem hcs c hcmem
        exact IH x (hsz x hx) (TypeOkList_mem hok2 hx) c hcx
      rw [cleanPairs_of_ptwise hpt, exceptBind_ok]
    | str s =>
      rw [cleanPropsKey] at h
      cases h
      rw [cleanPropsKey]
      have hpt : ∀ k c, (k, c) ∈ s.data.enum.map
          (fun q => (toString q.1, Json.str (String.singleton q.2))) →
          cleanJsonSchema c = Except.ok c := by
        intro k c hm
        obtain ⟨q, hq, hqe⟩ := List.mem_map.mp hm
        have hc : Json.str (String.singleton q.2) = c := congrArg Prod.snd hqe
        rw [← hc]
        exact clean_str_id _
      rw [cleanPairs_of_ptwise hpt, exceptBind_ok]
    | null =>
      rw [cleanPropsKey] at h
      cases h
    | bool b =>
      rw [cleanPropsKey] at h
      cases h
      rw [cleanPropsKey, cleanPairs, exceptBind_ok]
    | num n =>
      rw [cleanPropsKey] at h
      cases h
      rw [cleanPropsKey, cleanPairs, exceptBind_ok]

theorem cleanItemsKey_stable (N : Nat) (o po : Option Json)
    (hN : sizeOf o ≤ N)
    (IH : ∀ x, sizeOf x < N → TypeOk x = true → ∀ c, cleanJsonSchema x = Except.ok c →
      cleanJsonSchema c = Except.ok c)
    (hok : itemsKeyOk o = true)
    (h : cleanItemsKey o = Except.ok po) :
    cleanItemsKey po = Except.ok po := by
  cases o with
  | none =>
    rw [cleanItemsKey] at h
    cases h
    rw [cleanItemsKey]
  | some v =>
    rw [cleanItemsKey] at h
    rw [exceptBind_ok_iff] at h
    obtain ⟨c, hc, h⟩ := h
    cases h
    rw [cleanItemsKey]
    have hok2 : TypeOk v = true := by rw [itemsKeyOk] at hok; exact hok
    have hsz : sizeOf v < N := by simp at hN; omega
    rw [IH v hsz hok2 c hc, exceptBind_ok]

theorem cleanOfKey_stable (N : Nat) (o po : Option Json)
    (hN : sizeOf o ≤ N)
    (IH : ∀ x, sizeOf x < N → TypeOk x = true → ∀ c, cleanJsonSchema x = Except.ok c →
      cleanJsonSchema c = Except.ok c)
    (hok : ofKeyOk o = true)
    (h : cleanOfKey o = Except.ok po) :
    cleanOfKey po = Except.ok po := by
  cases o with
  | none =>
    rw [cleanOfKey] at h
    cases h
    rw [cleanOfKey]
  | some v =>
    cases v with
    | arr xs =>
      rw [cleanOfKey] at h
      rw [exceptBind_ok_iff] at h
      obtain ⟨cs, hcs, h⟩ := h
      cases h
      rw [cleanOfKey]
      have hok2 : TypeOkList xs = true := by rw [ofKeyOk] at hok; exact hok
      have hsz : ∀ x ∈ xs, sizeOf x < N := by
        intro x hm
        have h1 := List.sizeOf_lt_of_mem hm
        simp at hN h1
        omega
      have hstable := cleanList_stable hcs hok2
        (fun x hm ht c hc => IH x (hsz x hm) ht c hc)
      rw [hstable, exceptBind_ok]
    | null => rw [cleanOfKey] at h; cases h
    | bool b => rw [cleanOfKey] at h; cases h
    | num n => rw [cleanOfKey] at h; cases h
    | str s => rw [cleanOfKey] at h; cases h
    | obj fs => rw [cleanOfKey] at h; cases h

/-- Canonical bind form of the object case of `cleanJsonSchema`. -/
theorem cleanObj_eq (fields : List (String × Json)) :
    cleanJsonSchema (Json.obj fields) =
      (cleanPropsKey (jGet fields "properties") >>= fun po =>
       cleanItemsKey (jGet fields "items") >>= fun io =>
       cleanOfKey (jGet fields "oneOf") >>= fun oo =>
       cleanOfKey (jGet fields "anyOf") >>= fun ao =>
       cleanOfKey (jGet fields "allOf") >>= fun lo =>
       Except.ok (Json.obj (partsToFields
        { fType := (typeOut (jGet fields "type")).1
          fProps := po
          fRequired := requiredOut (jGet fields "required")
          fItems := io
          fFormat := jGet fields "format"
          fPattern := jGet fields "pattern"
          fMinLength := jGet fields "minLength"
          fMaxLength := jGet fields "maxLength"
          fMinimum := jGet fields "minimum"
          fMaximum := jGet fields "maximum"
          fEnum := (enumOut (jGet fields "enum")).1
          fDefault := jGet fields "default"
          fDescription := jGet fields "description"
          fExample := jGet fields "example"
          fNullable := nullableOut (jGet fields "nullable")
            (typeOut (jGet fields "type")).2.2 (enumOut (jGet fields "enum")).2
          fOneOf := match oo with
            | some l => some l
            | none => (typeOut (jGet fields "type")).2.1
          fAnyOf := ao
          fAllOf := lo }))) := by
  rw [cleanJsonSchema]

theorem clean_objNil : cleanJsonSchema (Json.obj []) = Except.ok (Json.obj []) := by
  rw [cleanObj_eq]
  rw [show (jGet [] "properties") = none from rfl, show (jGet [] "items") = none from rfl,
      show (jGet [] "oneOf") = none from rfl, show (jGet [] "anyOf") = none from rfl,
      show (jGet [] "allOf") = none from rfl, show (jGet [] "type") = none from rfl,
      show (jGet [] "required") = none from rfl, show (jGet [] "format") = none from rfl,
      show (jGet [] "pattern") = none from rfl, show (jGet [] "minLength") = none from rfl,
      show (jGet [] "maxLength") = none from rfl, show (jGet [] "minimum") = none from rfl,
      show (jGet [] "maximum") = none from rfl, show (jGet [] "enum") = none from rfl,
      show (jGet [] "default") = none from rfl, show (jGet [] "description") = none from rfl,
      show (jGet [] "example") = none from rfl, show (jGet [] "nullable") = none from rfl]
  rw [cleanPropsKey, exceptBind_ok, cleanItemsKey, exceptBind_ok, cleanOfKey]
  simp only [exceptBind_ok]
  simp [partsToFields, optField, typeOut, enumOut, requiredOut, nullableOut]

theorem clean_typeObj {t : Json} (ht : typeElemOk t = true) :
    cleanJsonSchema (Json.obj [("type", t)]) = Except.ok (Json.obj [("type", t)]) := by
  rw [cleanObj_eq]
  have h2 : ∀ k : String, k ≠ "type" → jGet [("type", t)] k = none := by
    intro k hk
    simp [jGet, Ne.symm hk]
  rw [show jGet [("type", t)] "type" = some t from by simp [jGet],
      h2 "properties" (by decide), h2 "items" (by decide),
      h2 "oneOf" (by decide), h2 "anyOf" (by decide), h2 "allOf" (by decide),
      h2 "required" (by decide), h2 "format" (by decide), h2 "pattern" (by decide),
      h2 "minLength" (by decide), h2 "maxLength" (by decide), h2 "minimum" (by decide),
      h2 "maximum" (by decide), h2 "enum" (by decide), h2 "default" (by decide),
      h2 "description" (by decide), h2 "example" (by decide), h2 "nullable" (by decide)]
  rw [typeOut_val_stable ht]
  rw [cleanPropsKey, exceptBind_ok, cleanItemsKey, exceptBind_ok, cleanOfKey]
  simp only [exceptBind_ok]
  simp [partsToFields, optField, requiredOut, nullableOut, enumOut]

theorem typeOut_gen_oneOf {o : Option Json} (hok : typeKeyOk o = true) :
    (typeOut o).2.1 = none ∨
    ∃ gl, (typeOut o).2.1 = some (Json.arr gl) ∧
      ∀ x ∈ gl, cleanJsonSchema x = Except.ok x := by
  cases o with
  | none => exact Or.inl rfl
  | some t =>
    cases t with
    | arr ts =>
      have hall : ts.all typeElemOk = true := by simpa [typeKeyOk] using hok
      cases hn : ts.any Json.isNullLit with
      | true =>
        by_cases h1 : (ts.filter (fun t => !(Json.isNullLit t))).length = 1
        · obtain ⟨u, hu⟩ := List.length_eq_one.mp h1
          rw [typeOut_arr_one hn hu]
          exact Or.inl rfl
        · by_cases hg : 1 < (ts.filter (fun t => !(Json.isNullLit t))).length
          · rw [typeOut_arr_many hn h1 hg]
            refine Or.inr ⟨_, rfl, ?_⟩
            intro x hx
            rw [List.mem_append] at hx
            cases hx with
            | inl hx =>
              obtain ⟨u, hu, hux⟩ := List.mem_map.mp hx
              rw [← hux]
              exact clean_typeObj (typeElemOk_of_mem_filter hall hu)
            | inr hx =>
              rw [List.mem_singleton.mp hx]
              exact clean_typeObj (by rfl)
          · rw [typeOut_arr_else (by
              rintro ⟨_, hd⟩
              cases hd with
              | inl hl => exact h1 hl
              | inr hl => exact hg hl)]
            exact Or.inl rfl
      | false =>
        rw [typeOut_arr_else (by rintro ⟨hcon, _⟩; rw [hn] at hcon; cases hcon)]
        exact Or.inl rfl
    | null => exact Or.inl rfl
    | bool b => exact Or.inl rfl
    | num n => exact Or.inl rfl
    | str s => exact Or.inl rfl
    | obj fs => exact Or.inl rfl

theorem option_match_id (x : Option Json) :
    (match x with | some l => some l | (none : Option Json) => (none : Option Json)) = x := by
  cases x <;> rfl

theorem cleanJsonSchema_stable_aux :
    ∀ (N : Nat) (j : Json), sizeOf j < N → TypeOk j = true →
      ∀ c, cleanJsonSchema j = Except.ok c → cleanJsonSchema c = Except.ok c := by
  intro N
  induction N with
  | zero => intro j hj; omega
  | succ M ih =>
    intro j hj hok c hc
    match j with
    | Json.null => rw [cleanJsonSchema] at hc; cases hc; rw [cleanJsonSchema]
    | Json.bool b => rw [cleanJsonSchema] at hc; cases hc; rw [cleanJsonSchema]
    | Json.num n => rw [cleanJsonSchema] at hc; cases hc; rw [cleanJsonSchema]
    | Json.str s => rw [cleanJsonSchema] at hc; cases hc; rw [cleanJsonSchema]
    | Json.arr xs => rw [cleanJsonSchema] at hc; cases hc; exact clean_objNil
    | Json.obj fields =>
      obtain ⟨hT, hP, hI, hO1, hO2, hO3⟩ := TypeOk_obj_parts hok
      rw [cleanObj_eq] at hc
      rw [exceptBind_ok_iff] at hc
      obtain ⟨po, hpo, hc⟩ := hc
      rw [exceptBind_ok_iff] at hc
      obtain ⟨io, hio, hc⟩ := hc
      rw [exceptBind_ok_iff] at hc
      obtain ⟨oo, hoo, hc⟩ := hc
      rw [exceptBind_ok_iff] at hc
      obtain ⟨ao, hao, hc⟩ := hc
      rw [exceptBind_ok_iff] at hc
      obtain ⟨lo, hlo, hc⟩ := hc
      cases hc
      have hsub : ∀ k : String, sizeOf (jGet fields k) ≤ M := by
        intro k
        have h1 := jGet_opt_sizeOf_lt fields k
        omega
      have hpo2 := cleanPropsKey_stable M _ po (hsub "properties") ih hP hpo
      have hio2 := cleanItemsKey_stable M _ io (hsub "items") ih hI hio
      have hoo2 := cleanOfKey_stable M _ oo (hsub "oneOf") ih hO1 hoo
      have hao2 := cleanOfKey_stable M _ ao (hsub "anyOf") ih hO2 hao
      have hlo2 := cleanOfKey_stable M _ lo (hsub "allOf") ih hO3 hlo
      have hfoo : ∀ x : Option Json, cleanOfKey x = Except.ok x →
          cleanOfKey (match x with
          | some l => some l
          | none => (typeOut (jGet fields "type")).2.1) =
          Except.ok (match x with
          | some l => some l
          | none => (typeOut (jGet fields "type")).2.1) := by
        intro x hx
        cases x with
        | some l => exact hx
        | none =>
          cases typeOut_gen_oneOf hT with
          | inl hnone =>
            show cleanOfKey (typeOut (jGet fields "type")).2.1 = _
            rw [hnone]
            rw [cleanOfKey]
          | inr hsome =>
            obtain ⟨gl, hgl, hstab⟩ := hsome
            show cleanOfKey (typeOut (jGet fields "type")).2.1 = _
            rw [hgl]
            rw [cleanOfKey, cleanList_of_ptwise hstab, exceptBind_ok]
      rw [cleanObj_eq]
      rw [jGet_parts_fProps, jGet_parts_fItems, jGet_parts_fOneOf, jGet_parts_fAnyOf,
          jGet_parts_fAllOf, jGet_parts_fType, jGet_parts_fRequired, jGet_parts_fFormat,
          jGet_parts_fPattern, jGet_parts_fMinLength, jGet_parts_fMaxLength,
          jGet_parts_fMinimum, jGet_parts_fMaximum, jGet_parts_fEnum, jGet_parts_fDefault,
          jGet_parts_fDescription, jGet_parts_fExample, jGet_parts_fNullable]
      simp only []
      rw [hpo2, exceptBind_ok, hio2, exceptBind_ok, hfoo oo hoo2, exceptBind_ok,
          hao2, exceptBind_ok, hlo2, exceptBind_ok]
      rw [typeOut_pass2 hT, enumOut_pass2, requiredOut_stable]
      dsimp only
      rw [nullableOut_false_false]
      rw [option_match_id]

/-- C9 counterexample: `cleanJsonSchema` is not idempotent as universally
stated.  On `\x7btype: [["a","null"], "null"]\x7d` the first pass keeps the
nested array as the `type` value (one non-null member plus `'null'`), and the
second pass re-normalizes that array to `type: "a"`, so cleaning the output
changes it again. -/
theorem cleanJsonSchema_not_idempotent :
    cleanJsonSchema (Json.obj [("type",
        Json.arr [Json.arr [Json.str "a", Json.str "null"], Json.str "null"])]) =
      Except.ok (Json.obj [("type", Json.arr [Json.str "a", Json.str "null"]),
        ("nullable", Json.bool true)]) ∧
    cleanJsonSchema (Json.obj [("type", Json.arr [Json.str "a", Json.str "null"]),
        ("nullable", Json.bool true)]) =
      Except.ok (Json.obj [("type", Json.str "a"), ("nullable", Json.bool true)]) ∧
    Json.obj [("type", Json.str "a"), ("nullable", Json.bool true)] ≠
      Json.obj [("type", Json.arr [Json.str "a", Json.str "null"]),
        ("nullable", Json.bool true)] := by
  refine ⟨?_, ?_, ?_⟩
  · simp [cleanObj_eq, jGet, cleanPropsKey, cleanItemsKey, cleanOfKey, typeOut, enumOut,
      requiredOut, nullableOut, partsToFields, optField, Json.isNullLit, exceptBind_ok]
  · simp [cleanObj_eq, jGet, cleanPropsKey, cleanItemsKey, cleanOfKey, typeOut, enumOut,
      requiredOut, nullableOut, partsToFields, optField, Json.isNullLit, exceptBind_ok]
  · simp

/-- C9 (amended): `cleanJsonSchema` is idempotent on every schema whose
`type` values — at the root and recursively inside `properties` values,
`items`, and `oneOf`/`anyOf`/`allOf` members — never use an array member
that itself contains the string `'null'` (the `TypeOk` domain): whenever
cleaning succeeds, cleaning the output returns it structurally unchanged. -/
theorem cleanJsonSchema_idem (j c : Json) (hok : TypeOk j = true)
    (hc : cleanJsonSchema j = Except.ok c) : cleanJsonSchema c = Except.ok c :=
  cleanJsonSchema_stable_aux (sizeOf j + 1) j (by omega) hok c hc

/-- Witness for `cleanJsonSchema_idem` at the enum scenario input. -/
theorem cleanJsonSchema_idem_witness :
    cleanJsonSchema (Json.obj [("enum", Json.arr [Json.str "a", Json.str "b", Json.null])]) =
      Except.ok (Json.obj [("enum", Json.arr [Json.str "a", Json.str "b"]),
        ("nullable", Json.bool true)]) ∧
    cleanJsonSchema (Json.obj [("enum", Json.arr [Json.str "a", Json.str "b"]),
        ("nullable", Json.bool true)]) =
      Except.ok (Json.obj [("enum", Json.arr [Json.str "a", Json.str "b"]),
        ("nullable", Json.bool true)]) := by
  have h1 : cleanJsonSchema
      (Json.obj [("enum", Json.arr [Json.str "a", Json.str "b", Json.null])]) =
      Except.ok (Json.obj [("enum", Json.arr [Json.str "a", Json.str "b"]),
        ("nullable", Json.bool true)]) := by
    simp [cleanObj_eq, jGet, cleanPropsKey, cleanItemsKey, cleanOfKey, typeOut, enumOut,
      requiredOut, nullableOut, partsToFields, optField, Json.isNullVal, exceptBind_ok]
  refine ⟨h1, ?_⟩
  exact cleanJsonSchema_idem _ _
    (by simp [TypeOk, typeKeyOk, propsKeyOk, itemsKeyOk, ofKeyOk, jGet]) h1

/-- C6 counterexample: an explicitly present `nullable` is copied after the
enum normalization (part_008 line 220) and therefore overrides the inferred
`nullable: true`; on `\x7benum: ["a", null], nullable: false\x7d` the output
has `nullable: false`, not `true` as the claim requires. -/
theorem cleanJsonSchema_enum_nullable_override :
    cleanJsonSchema (Json.obj [("enum", Json.arr [Json.str "a", Json.null]),
        ("nullable", Json.bool false)]) =
      Except.ok (Json.obj [("enum", Json.arr [Json.str "a"]),
        ("nullable", Json.bool false)]) ∧
    Json.bool false ≠ Json.bool true := by
  refine ⟨?_, by simp⟩
  simp [cleanObj_eq, jGet, cleanPropsKey, cleanItemsKey, cleanOfKey, typeOut, enumOut,
    requiredOut, nullableOut, partsToFields, optField, Json.isNullVal, exceptBind_ok]

/-- C6 (amended): for every schema without an explicit `nullable` key,
`cleanJsonSchema` (1) turns an enum array containing a null sentinel into
the same enum with the nulls removed and `nullable: true`; and (2) turns a
`type` array containing `'null'` whose non-null members reduce to a single
value into that value with `nullable: true`. -/
theorem cleanJsonSchema_null_normalization :
    (∀ (fields : List (String × Json)) (vs : List Json) (c : Json),
      jGet fields "enum" = some (Json.arr vs) →
      vs.any Json.isNullVal = true →
      jGet fields "nullable" = none →
      cleanJsonSchema (Json.obj fields) = Except.ok c →
      ∃ cf, c = Json.obj cf ∧
        jGet cf "enum" = some (Json.arr (vs.filter (fun v => !(Json.isNullVal v)))) ∧
        jGet cf "nullable" = some (Json.bool true)) ∧
    (∀ (fields : List (String × Json)) (ts : List Json) (t c : Json),
      jGet fields "type" = some (Json.arr ts) →
      ts.any Json.isNullLit = true →
      ts.filter (fun x => !(Json.isNullLit x)) = [t] →
      jGet fields "nullable" = none →
      cleanJsonSchema (Json.obj fields) = Except.ok c →
      ∃ cf, c = Json.obj cf ∧
        jGet cf "type" = some t ∧
        jGet cf "nullable" = some (Json.bool true)) := by
  constructor
  · intro fields vs c henum hnull hnn hc
    rw [cleanObj_eq] at hc
    rw [exceptBind_ok_iff] at hc
    obtain ⟨po, hpo, hc⟩ := hc
    rw [exceptBind_ok_iff] at hc
    obtain ⟨io, hio, hc⟩ := hc
    rw [exceptBind_ok_iff] at hc
    obtain ⟨oo, hoo, hc⟩ := hc
    rw [exceptBind_ok_iff] at hc
    obtain ⟨ao, hao, hc⟩ := hc
    rw [exceptBind_ok_iff] at hc
    obtain ⟨lo, hlo, hc⟩ := hc
    cases hc
    refine ⟨_, rfl, ?_, ?_⟩
    · rw [jGet_parts_fEnum]
      rw [henum]
      simp [enumOut, hnull]
    · rw [jGet_parts_fNullable]
      rw [henum, hnn]
      simp [enumOut, hnull, nullableOut]
  · intro fields ts t c htype hnull hone hnn hc
    rw [cleanObj_eq] at hc
    rw [exceptBind_ok_iff] at hc
    obtain ⟨po, hpo, hc⟩ := hc
    rw [exceptBind_ok_iff] at hc
    obtain ⟨io, hio, hc⟩ := hc
    rw [exceptBind_ok_iff] at hc
    obtain ⟨oo, hoo, hc⟩ := hc
    rw [exceptBind_ok_iff] at hc
    obtain ⟨ao, hao, hc⟩ := hc
    rw [exceptBind_ok_iff] at hc
    obtain ⟨lo, hlo, hc⟩ := hc
    cases hc
    refine ⟨_, rfl, ?_, ?_⟩
    · rw [jGet_parts_fType]
      rw [htype, typeOut_arr_one hnull hone]
    · rw [jGet_parts_fNullable]
      rw [htype, hnn, typeOut_arr_one hnull hone]
      simp [nullableOut]

/-- Witness for `cleanJsonSchema_null_normalization` at the spec scenario
`enum: ["a", "b", null]` and at `type: ["string", "null"]`. -/
theorem cleanJsonSchema_null_normalization_witness :
    (∃ cf, Json.obj [("enum", Json.arr [Json.str "a", Json.str "b"]),
        ("nullable", Json.bool true)] = Json.obj cf ∧
      jGet cf "enum" = some (Json.arr ([Json.str "a", Json.str "b",
        Json.null].filter (fun v => !(Json.isNullVal v)))) ∧
      jGet cf "nullable" = some (Json.bool true)) ∧
    (∃ cf, Json.obj [("type", Json.str "string"), ("nullable", Json.bool true)] = Json.obj cf ∧
      jGet cf "type" = some (Json.str "string") ∧
      jGet cf "nullable" = some (Json.bool true)) := by
  constructor
  · exact cleanJsonSchema_null_normalization.1
      [("enum", Json.arr [Json.str "a", Json.str "b", Json.null])]
      [Json.str "a", Json.str "b", Json.null] _
      (by simp [jGet]) (by rfl) (by simp [jGet])
      (by simp [cleanObj_eq, jGet, cleanPropsKey, cleanItemsKey, cleanOfKey, typeOut,
        enumOut, requiredOut, nullableOut, partsToFields, optField, Json.isNullVal,
        exceptBind_ok])
  · exact cleanJsonSchema_null_normalization.2
      [("type", Json.arr [Json.str "string", Json.str "null"])]
      [Json.str "string", Json.str "null"] (Json.str "string") _
      (by simp [jGet]) (by rfl) (by rfl) (by simp [jGet])
      (by simp [cleanObj_eq, jGet, cleanPropsKey, cleanItemsKey, cleanOfKey, typeOut,
        enumOut, requiredOut, nullableOut, partsToFields, optField, Json.isNullLit,
        exceptBind_ok])

theorem noParamTok_cons_of_ne {c : Char} (xs : List Char) (hc : c ≠ ':') :
    noParamTok (c :: xs) = noParamTok xs := by
  cases xs with
  | nil => rfl
  | cons d t => simp [noParamTok, hc]

theorem noParamTok_append (pre xs : List Char) (hpre : ∀ x ∈ pre, x ≠ ':') :
    noParamTok (pre ++ xs) = noParamTok xs := by
  induction pre with
  | nil => rfl
  | cons a pre2 ih =>
    rw [List.cons_append, noParamTok_cons_of_ne _ (hpre a (List.mem_cons_self _ _))]
    exact ih (fun x hx => hpre x (List.mem_cons_of_mem _ hx))

theorem rewritePath_cons_head (d : Char) (rest : List Char) :
    ∃ h t, rewritePath (d :: rest) = h :: t ∧ (h = d ∨ h = '{') := by
  rw [rewritePath]
  by_cases hd : d = ':'
  · subst hd
    rw [if_pos rfl]
    by_cases hw : (rest.takeWhile isWordCh).isEmpty
    · rw [if_pos hw]
      exact ⟨':', _, rfl, Or.inl rfl⟩
    · rw [if_neg hw]
      exact ⟨'{', _, rfl, Or.inr rfl⟩
  · rw [if_neg hd]
    exact ⟨d, _, rfl, Or.inl rfl⟩

theorem noParamTok_rewritePath_aux :
    ∀ (n : Nat) (l : List Char), l.length < n → noParamTok (rewritePath l) = true := by
  intro n
  induction n with
  | zero => intro l hl; omega
  | succ m ih =>
    intro l hl
    match l with
    | [] => rw [rewritePath]; rfl
    | c :: rest =>
      rw [rewritePath]
      by_cases hc : c = ':'
      · subst hc
        by_cases hw : (rest.takeWhile isWordCh).isEmpty
        · rw [if_pos rfl, if_pos hw]
          match rest with
          | [] => rw [rewritePath]; rfl
          | d :: rest2 =>
            have hdw : isWordCh d = false := by
              rw [List.takeWhile] at hw
              cases hdw : isWordCh d with
              | true => rw [hdw] at hw; simp at hw
              | false => rfl
            obtain ⟨h, t, hrw, hht⟩ := rewritePath_cons_head d rest2
            rw [hrw]
            have hhw : isWordCh h = false := by
              cases hht with
              | inl he => rw [he]; exact hdw
              | inr he => rw [he]; rfl
            rw [show noParamTok (':' :: h :: t) = noParamTok (h :: t) from by
              simp [noParamTok, hhw]]
            rw [← hrw]
            apply ih
            simp at hl ⊢
            omega
        · rw [if_pos rfl, if_neg hw]
          have hpre : ∀ x ∈ '{' :: rest.takeWhile isWordCh, x ≠ ':' := by
            intro x hx
            cases hx with
            | head => decide
            | tail _ hm =>
              have := List.mem_takeWhile_imp hm
              intro hcon
              rw [hcon] at this
              cases this
          have hstep : noParamTok ('{' :: (rest.takeWhile isWordCh ++
              '}' :: rewritePath (rest.dropWhile isWordCh))) =
              noParamTok ('}' :: rewritePath (rest.dropWhile isWordCh)) := by
            rw [show '{' :: (rest.takeWhile isWordCh ++
                '}' :: rewritePath (rest.dropWhile isWordCh)) =
                ('{' :: rest.takeWhile isWordCh) ++
                '}' :: rewritePath (rest.dropWhile isWordCh) from rfl]
            exact noParamTok_append _ _ hpre
          rw [hstep, noParamTok_cons_of_ne _ (by decide)]
          apply ih
          have := dropWhile_length_le isWordCh rest
          simp at hl
          omega
      · rw [if_neg hc, noParamTok_cons_of_ne _ hc]
        apply ih
        simp at hl
        omega

theorem noParamTok_rewritePath (l : List Char) : noParamTok (rewritePath l) = true :=
  noParamTok_rewritePath_aux (l.length + 1) l (by omega)

theorem rewritePath_of_noParamTok :
    ∀ (n : Nat) (l : List Char), l.length < n → noParamTok l = true → rewritePath l = l := by
  intro n
  induction n with
  | zero => intro l hl; omega
  | succ m ih =>
    intro l hl hnp
    match l with
    | [] => rw [rewritePath]
    | c :: rest =>
      rw [rewritePath]
      by_cases hc : c = ':'
      · subst hc
        match rest with
        | [] => simp [rewritePath, List.takeWhile]
        | d :: rest2 =>
          have hdw : isWordCh d = false := by
            cases hdw : isWordCh d with
            | true => simp [noParamTok, hdw] at hnp
            | false => rfl
          have hw : ((d :: rest2).takeWhile isWordCh).isEmpty = true := by
            rw [List.takeWhile]
            rw [hdw]
            rfl
          rw [if_pos rfl, if_pos hw]
          have hnp2 : noParamTok (d :: rest2) = true := by
            simpa [noParamTok, hdw] using hnp
          rw [ih (d :: rest2) (by simp at hl ⊢; omega) hnp2]
      · rw [if_neg hc]
        have hnp2 : noParamTok rest = true := by
          rw [noParamTok_cons_of_ne rest hc] at hnp
          exact hnp
        rw [ih rest (by simp at hl ⊢; omega) hnp2]

/-- C8: the path-parameter rewrite `:name` to brace-delimited `name`
performed by `extractRoutes` is idempotent — rewriting an already-rewritten
path changes nothing. -/
theorem rewritePath_idempotent (p : List Char) :
    rewritePath (rewritePath p) = rewritePath p :=
  rewritePath_of_noParamTok ((rewritePath p).length + 1) (rewritePath p) (by omega)
    (noParamTok_rewritePath p)

theorem extractRoutes_eq_cons {content m p rest : List Char} (basePath : List Char)
    (hf : findRoute content = some (m, p, rest)) :
    extractRoutes content basePath =
      buildRoute basePath m p rest :: extractRoutes rest basePath := by
  rw [extractRoutes]
  split
  · rename_i heq; rw [hf] at heq; cases heq
  · rename_i m2 p2 rest2 heq
    rw [hf] at heq
    cases heq
    rfl

theorem extractRoutes_eq_nil {content : List Char} (basePath : List Char)
    (hf : findRoute content = none) :
    extractRoutes content basePath = [] := by
  rw [extractRoutes]
  split
  · rfl
  · rename_i m2 p2 rest2 heq; rw [hf] at heq; cases heq

theorem extractRoutes_length_aux :
    ∀ (n : Nat) (content basePath : List Char), content.length < n →
      (extractRoutes content basePath).length = (registrationMatches content).length := by
  intro n
  induction n with
  | zero => intro content bp h; omega
  | succ m ih =>
    intro content bp h
    rw [extractRoutes, registrationMatches]
    cases hf : findRoute content with
    | none => rfl
    | some r =>
      obtain ⟨mv, pv, rest⟩ := r
      simp only
      rw [List.length_cons, List.length_cons]
      rw [ih rest bp (by have := findRoute_length hf; omega)]

/-- C1: `extractRoutes` emits exactly one `RouteInfo` per registration-regex
match, for every routing-file text (in particular for every text whose
argument lists are balanced, however they are split across lines): the
routes are in bijection with the global-regex matches, because the
balanced-parenthesis `argSection` scan only delimits the argument text and
never decides whether a route is emitted. -/
theorem extractRoutes_one_per_registration (content basePath : List Char) :
    (extractRoutes content basePath).length = (registrationMatches content).length :=
  extractRoutes_length_aux (content.length + 1) content basePath (by omega)

theorem matchVerb_cases {s m r : List Char} (h : matchVerb s = some (m, r)) :
    m = "GET".data ∨ m = "POST".data ∨ m = "PUT".data ∨ m = "PATCH".data ∨
      m = "DELETE".data := by
  simp only [matchVerb] at h
  split at h
  · cases h; exact Or.inl rfl
  · split at h
    · cases h; exact Or.inr (Or.inl rfl)
    · split at h
      · cases h; exact Or.inr (Or.inr (Or.inl rfl))
      · split at h
        · cases h; exact Or.inr (Or.inr (Or.inr (Or.inl rfl)))
        · split at h
          · cases h; exact Or.inr (Or.inr (Or.inr (Or.inr rfl)))
          · cases h

theorem tryRouteAt_cases {s m p r : List Char} (h : tryRouteAt s = some (m, p, r)) :
    m = "GET".data ∨ m = "POST".data ∨ m = "PUT".data ∨ m = "PATCH".data ∨
      m = "DELETE".data := by
  simp only [tryRouteAt] at h
  split at h
  · cases h
  · split at h
    · cases h
    · rename_i s1 heq1 mm s2 heq2
      split at h
      · split at h
        · split at h
          · split at h
            · split at h
              · cases h
              · cases h
                exact matchVerb_cases heq2
            · cases h
          · cases h
        · cases h
      · cases h

theorem findRoute_cases {s m p r : List Char} (h : findRoute s = some (m, p, r)) :
    m = "GET".data ∨ m = "POST".data ∨ m = "PUT".data ∨ m = "PATCH".data ∨
      m = "DELETE".data := by
  induction s with
  | nil => simp [findRoute] at h
  | cons c rest ih =>
    simp only [findRoute] at h
    split at h
    · rename_i val heq
      cases h
      exact tryRouteAt_cases heq
    · exact ih h

theorem genOpId_ne {m p : List Char}
    (hm : m = "GET".data ∨ m = "POST".data ∨ m = "PUT".data ∨ m = "PATCH".data ∨
      m = "DELETE".data) :
    generateOperationId m p ≠ "unknown".data ∧ generateOperationId m p ≠ "bind".data := by
  rcases hm with h | h | h | h | h
  · subst h
    refine ⟨fun hcon => ?_, fun hcon => ?_⟩ <;>
      (have h1 := congrArg (List.take 1) hcon
       rw [show List.take 1 (generateOperationId "GET".data p) = ['g'] from rfl] at h1
       exact absurd h1 (by decide))
  · subst h
    refine ⟨fun hcon => ?_, fun hcon => ?_⟩ <;>
      (have h1 := congrArg (List.take 1) hcon
       rw [show List.take 1 (generateOperationId "POST".data p) = ['p'] from rfl] at h1
       exact absurd h1 (by decide))
  · subst h
    refine ⟨fun hcon => ?_, fun hcon => ?_⟩ <;>
      (have h1 := congrArg (List.take 1) hcon
       rw [show List.take 1 (generateOperationId "PUT".data p) = ['p'] from rfl] at h1
       exact absurd h1 (by decide))
  · subst h
    refine ⟨fun hcon => ?_, fun hcon => ?_⟩ <;>
      (have h1 := congrArg (List.take 1) hcon
       rw [show List.take 1 (generateOperationId "PATCH".data p) = ['p'] from rfl] at h1
       exact absurd h1 (by decide))
  · subst h
    refine ⟨fun hcon => ?_, fun hcon => ?_⟩ <;>
      (have h1 := congrArg (List.take 1) hcon
       rw [show List.take 1 (generateOperationId "DELETE".data p) = ['d'] from rfl] at h1
       exact absurd h1 (by decide))

theorem resolveControllerMethod_ne (cm : List Char) {m : List Char} (p : List Char)
    (hm : m = "GET".data ∨ m = "POST".data ∨ m = "PUT".data ∨ m = "PATCH".data ∨
      m = "DELETE".data) :
    resolveControllerMethod cm m p ≠ "unknown".data ∧
    resolveControllerMethod cm m p ≠ "bind".data := by
  by_cases h1 : cm = "unknown".data
  · rw [resolveControllerMethod, if_pos (by simp [h1])]
    exact genOpId_ne hm
  · by_cases h2 : cm = "bind".data
    · rw [resolveControllerMethod, if_pos (by simp [h2])]
      exact genOpId_ne hm
    · rw [resolveControllerMethod, if_neg (by simp [h1, h2])]
      exact ⟨h1, h2⟩

theorem buildRoute_controllerMethod {m : List Char} (basePath p tail : List Char)
    (hm : m = "GET".data ∨ m = "POST".data ∨ m = "PUT".data ∨ m = "PATCH".data ∨
      m = "DELETE".data) :
    (buildRoute basePath m p tail).controllerMethod ≠ "unknown".data ∧
    (buildRoute basePath m p tail).controllerMethod ≠ "bind".data :=
  resolveControllerMethod_ne _ p hm

theorem extractRoutes_cm_aux :
    ∀ (n : Nat) (content : List Char), content.length ≤ n →
      ∀ (basePath : List Char) (r : RouteInfo), r ∈ extractRoutes content basePath →
        r.controllerMethod ≠ "unknown".data ∧ r.controllerMethod ≠ "bind".data := by
  intro n
  induction n using Nat.strong_induction_on with
  | _ n ihn =>
    intro content hlen bp r hr
    rw [extractRoutes] at hr
    cases hf : findRoute content with
    | none => rw [hf] at hr; cases hr
    | some v =>
      obtain ⟨mv, pv, rest⟩ := v
      rw [hf] at hr
      simp only [List.mem_cons] at hr
      cases hr with
      | inl he =>
        rw [he]
        exact buildRoute_controllerMethod bp pv rest (findRoute_cases hf)
      | inr hm =>
        exact ihn rest.length (Nat.lt_of_lt_of_le (findRoute_length hf) hlen)
          rest le_rfl bp r hm

/-- C10: every route emitted by `extractRoutes` carries a controller method
that is neither `unknown` nor `bind`: any such leftover is replaced by an
operation id synthesized from the HTTP verb and the path segments, and a
synthesized id always starts with the lowercased verb. -/
theorem extractRoutes_controllerMethod_known :
    ∀ (content basePath : List Char) (r : RouteInfo), r ∈ extractRoutes content basePath →
      r.controllerMethod ≠ "unknown".data ∧ r.controllerMethod ≠ "bind".data :=
  fun content bp r hr => extractRoutes_cm_aux content.length content le_rfl bp r hr

theorem extractRoutes_controllerMethod_known_witness :
    buildRoute [] "GET".data "/a".data ", c.f)".data ∈
        extractRoutes "router.get(\"/a\", c.f)".data [] ∧
      ((buildRoute [] "GET".data "/a".data ", c.f)".data).controllerMethod ≠
          "unknown".data ∧
        (buildRoute [] "GET".data "/a".data ", c.f)".data).controllerMethod ≠
          "bind".data) := by
  have hf : findRoute "router.get(\"/a\", c.f)".data =
      some ("GET".data, "/a".data, ", c.f)".data) := by decide
  have hmem : buildRoute [] "GET".data "/a".data ", c.f)".data ∈
      extractRoutes "router.get(\"/a\", c.f)".data [] := by
    rw [extractRoutes_eq_cons [] hf]
    exact List.mem_cons_self _ _
  exact ⟨hmem, extractRoutes_controllerMethod_known _ _ _ hmem⟩

/-- C5 counterexample: a registration whose argument list is unterminated (no
matching close before end of file) is NOT skipped: `extractRoutes` still
emits a `RouteInfo` for it.  The balanced scan reports no matching close
(`(argSection ", h.x" 1).2 = false`, the `endPos` default of part_007 line
945), yet line 1023 pushes the route unconditionally. -/
theorem extractRoutes_no_skip_unterminated :
    (argSection ", h.x".data 1).2 = false ∧
    extractRoutes "router.get(\"/a\", h.x".data [] =
      [buildRoute [] "GET".data "/a".data ", h.x".data] := by
  have hf : findRoute "router.get(\"/a\", h.x".data =
      some ("GET".data, "/a".data, ", h.x".data) := by decide
  have hn : findRoute ", h.x".data = none := by decide
  refine ⟨rfl, ?_⟩
  rw [extractRoutes_eq_cons [] hf, extractRoutes_eq_nil [] hn]

/-- C5 (amended): `extractRoutes` emits one `RouteInfo` for every
registration-regex match, whether or not the argument list that follows has
a matching closing parenthesis: an unterminated argument list only makes the
balanced scan take the whole remaining file as the argument text; it never
suppresses the route. -/
theorem extractRoutes_emits_every_match {content m p rest : List Char}
    (basePath : List Char) (hf : findRoute content = some (m, p, rest)) :
    extractRoutes content basePath =
      buildRoute basePath m p rest :: extractRoutes rest basePath :=
  extractRoutes_eq_cons basePath hf

theorem extractRoutes_emits_every_match_witness :
    findRoute "router.post(\"/b\", k.go".data =
      some ("POST".data, "/b".data, ", k.go".data) ∧
    extractRoutes "router.post(\"/b\", k.go".data [] =
      buildRoute [] "POST".data "/b".data ", k.go".data ::
        extractRoutes ", k.go".data [] := by
  have hf : findRoute "router.post(\"/b\", k.go".data =
      some ("POST".data, "/b".data, ", k.go".data) := by decide
  exact ⟨hf, extractRoutes_emits_every_match [] hf⟩

/-- C2: when a validator reference is present on the route but its
resolution fails (`loadJoiSchemaFromValidator` returned null, so no Joi
schema is available), the request-body schema contains exactly the
controller-inferred fields and no smart defaults: `hasValidator` suppresses
the smart-default merge (generator lines 258-267) even when smart defaults
are enabled and the route matches a smart-default pattern. -/
theorem requestBodySchema_no_defaults_on_unresolved (route : RouteInfo)
    (ci : Option ControllerInfo) (sd : Option Bool)
    (hv : route.validatorSchema.isSome = true) :
    requestBodySchema route ci sd none =
      RequestSchema.inferred ((controllerFieldMap ci).map (fun p => p.2)) := by
  rw [requestBodySchema]
  simp [hv]

theorem requestBodySchema_no_defaults_witness :
    (RouteInfo.mk "POST".data "/login".data "a.login".data "login".data false []
        (some "authSchemas.login".data)).validatorSchema.isSome = true ∧
    generateSmartDefaults
        (RouteInfo.mk "POST".data "/login".data "a.login".data "login".data false []
          (some "authSchemas.login".data)) ≠ [] ∧
    requestBodySchema
        (RouteInfo.mk "POST".data "/login".data "a.login".data "login".data false []
          (some "authSchemas.login".data)) none (some true) none =
      RequestSchema.inferred [] :=
  ⟨rfl, by decide,
    (requestBodySchema_no_defaults_on_unresolved
      (RouteInfo.mk "POST".data "/login".data "a.login".data "login".data false []
        (some "authSchemas.login".data)) none (some true) rfl).trans rfl⟩

/-- C3: `typeToJsonSchema` terminates on every modelled type environment —
it is accepted as a total function with the lexicographic measure
(unvisited declared names, type size) that the source's visited-set
discipline furnishes — and a declared type name that is encountered again
while already in the active visited set, before its schema has been cached,
resolves to the `#/components/schemas/<name>` reference node of part_007
line 719 instead of a further inline expansion. -/
theorem typeToJsonSchema_visited_ref (env : List (String × TyExpr))
    (cache : List (String × Json)) (visited : List String) (t : TyExpr) (n : String)
    (hd : declaredTypeName (env.map Prod.fst) t = some n)
    (hc : jGet cache n = none)
    (hv : visited.contains n = true) :
    typeToJsonSchema env cache visited t true = (refNode n, cache) := by
  rw [typeToJsonSchema]
  rw [if_pos rfl]
  split
  case h_2 heq => rw [hd] at heq; cases heq
  case h_1 n2 heq =>
    rw [hd] at heq
    cases heq
    split
    case h_1 s heq2 => rw [hc] at heq2; cases heq2
    case h_2 heq2 =>
      rw [dif_pos hv]

theorem typeToJsonSchema_visited_ref_witness :
    declaredTypeName
        ([("User", TyExpr.iface "User"
            [("name", false, TyExpr.prim "string"),
             ("manager", true, TyExpr.iface "User" [])])].map Prod.fst)
        (TyExpr.iface "User" []) = some "User" ∧
      jGet [] "User" = none ∧
      (["User"].contains "User" = true) ∧
      typeToJsonSchema
          [("User", TyExpr.iface "User"
            [("name", false, TyExpr.prim "string"),
             ("manager", true, TyExpr.iface "User" [])])]
          [] ["User"] (TyExpr.iface "User" []) true = (refNode "User", []) :=
  ⟨by decide, rfl, by decide,
    typeToJsonSchema_visited_ref
      [("User", TyExpr.iface "User"
        [("name", false, TyExpr.prim "string"),
         ("manager", true, TyExpr.iface "User" [])])]
      [] ["User"] (TyExpr.iface "User" []) "User" (by decide) rfl (by decide)⟩

theorem renderTy_union_prim_null (p : String) :
    renderTy (TyExpr.union [TyExpr.prim p, TyExpr.nullT]) =
      p.data ++ " | null".data := by
  rw [renderTy, renderTyList, renderTy, renderTyList, renderTy, renderTyList]
  simp [List.intercalate, List.intersperse]

theorem pipe_ne {p q : List Char} (hq : '|' ∉ q) : p ++ " | null".data ≠ q := by
  intro h
  apply hq
  rw [← h]
  exact List.mem_append_right _ (by decide)

theorem declaredTypeName_nil (t : TyExpr) : declaredTypeName [] t = none := by
  rw [declaredTypeName]
  split
  · rw [if_neg (by simp)]
    split
    · rw [if_neg (by simp)]
    · rfl
  · split
    · rw [if_neg (by simp)]
    · rfl

theorem union_null_first_general (env : List (String × TyExpr))
    (cache : List (String × Json)) (visited : List String) (p : String)
    (hd1 : declaredTypeName (env.map Prod.fst)
      (TyExpr.union [TyExpr.prim p, TyExpr.nullT]) = none)
    (hd2 : declaredTypeName (env.map Prod.fst) (TyExpr.prim p) = none)
    (hdate : hasSub "Date".data (p.data ++ " | null".data) = false) :
    typeToJsonSchema env cache visited
        (TyExpr.union [TyExpr.prim p, TyExpr.nullT]) true =
      (Json.obj [("type", Json.str p)], cache) := by
  rw [typeToJsonSchema, if_pos rfl]
  split
  case h_1 n2 heq => rw [hd1] at heq; cases heq
  case h_2 heq =>
    rw [typeToJsonSchemaCore]
    simp only [flagsPrim]
    rw [renderTy_union_prim_null]
    rw [if_neg (by simp [isStrLitTy]; exact pipe_ne (by decide))]
    rw [if_neg (by simp; exact ⟨pipe_ne (by decide), pipe_ne (by decide)⟩)]
    rw [if_neg (by simp; exact pipe_ne (by decide))]
    rw [if_neg (by simp; exact pipe_ne (by decide))]
    rw [if_neg (by simp [hdate])]
    rw [if_neg (by simp [List.takeWhile, isStrLitTy])]
    rw [typeToJsonSchema, if_pos rfl]
    split
    case h_1 n2 heq2 => rw [hd2] at heq2; cases heq2
    case h_2 heq2 =>
      rw [typeToJsonSchemaCore]
      simp only [flagsPrim]

/-- C4 counterexample: a union of exactly one non-null member and a null
member does NOT get `nullable: true`: all-string-literal union handling
aside, a non-empty union resolves to its *first* member's schema unchanged
(part_007 line 794), and the dedicated union-null branch at lines 857-869
is unreachable because every union has already returned.  `string | null`
yields plain `{type: string}` with no `nullable` key. -/
theorem typeToJsonSchema_union_null_not_nullable :
    typeToJsonSchema [] [] []
        (TyExpr.union [TyExpr.prim "string", TyExpr.nullT]) true =
      (Json.obj [("type", Json.str "string")], []) ∧
    jGet [("type", Json.str "string")] "nullable" = none :=
  ⟨union_null_first_general [] [] [] "string" (declaredTypeName_nil _)
      (declaredTypeName_nil _) (by decide),
    rfl⟩

/-- C4 (amended): a union of one primitive non-null member plus `null` (not
naming a declared type, and free of the `Date` substring) resolves to the
first member's schema — `{type: <member>}` — with no `nullable`
marker: the union-nullable branch of part_007 lines 857-869 is dead code,
since every union shape already returned at lines 770-795. -/
theorem typeToJsonSchema_union_null_resolves_member (env : List (String × TyExpr))
    (cache : List (String × Json)) (visited : List String) (p : String)
    (hd1 : declaredTypeName (env.map Prod.fst)
      (TyExpr.union [TyExpr.prim p, TyExpr.nullT]) = none)
    (hd2 : declaredTypeName (env.map Prod.fst) (TyExpr.prim p) = none)
    (hdate : hasSub "Date".data (p.data ++ " | null".data) = false) :
    typeToJsonSchema env cache visited
        (TyExpr.union [TyExpr.prim p, TyExpr.nullT]) true =
      (Json.obj [("type", Json.str p)], cache) ∧
    jGet [("type", Json.str p)] "nullable" = none :=
  ⟨union_null_first_general env cache visited p hd1 hd2 hdate, rfl⟩

theorem typeToJsonSchema_union_null_resolves_member_witness :
    declaredTypeName ([] : List String)
        (TyExpr.union [TyExpr.prim "number", TyExpr.nullT]) = none ∧
    declaredTypeName ([] : List String) (TyExpr.prim "number") = none ∧
    hasSub "Date".data ("number".data ++ " | null".data) = false ∧
    (typeToJsonSchema [] [] []
        (TyExpr.union [TyExpr.prim "number", TyExpr.nullT]) true =
      (Json.obj [("type", Json.str "number")], []) ∧
    jGet [("type", Json.str "number")] "nullable" = none) :=
  ⟨declaredTypeName_nil _, declaredTypeName_nil _, by decide,
    typeToJsonSchema_union_null_resolves_member [] [] [] "number"
      (declaredTypeName_nil _) (declaredTypeName_nil _) (by decide)⟩

theorem inferFieldType_email (lines : List (List Char)) (k : Nat) :
    inferFieldType "email".data lines k = "string (email)".data := by
  rw [inferFieldType]
  dsimp only
  rw [if_pos (by decide)]

theorem inferFieldType_password (lines : List (List Char)) (k : Nat) :
    inferFieldType "password".data lines k = "string (password)".data := by
  rw [inferFieldType]
  dsimp only
  rw [if_neg (by decide), if_pos (by decide)]

theorem statusStep_inv {line : List Char} (codes : List Nat)
    (h0 : findStatus line = none ∨ findStatus line = some 200)
    (hc : codes = [] ∨ codes = [200]) :
    (match findStatus line with
     | some code => if codes.contains code then codes else codes ++ [code]
     | none => codes) = [] ∨
    (match findStatus line with
     | some code => if codes.contains code then codes else codes ++ [code]
     | none => codes) = [200] := by
  rcases h0 with h0 | h0 <;> rw [h0]
  · exact hc
  · rcases hc with hc | hc <;> subst hc
    · right; decide
    · right; decide

theorem bodyStep_inv {line : List Char} (rest : List (List Char))
    (rbT : Option (List Char)) (rbF : List FieldInfo)
    (h0 : (findBody line).map parseFields = none ∨
      (findBody line).map parseFields = some ["email".data, "password".data])
    (hf : rbF = [] ∨ rbF =
      [FieldInfo.mk "email".data "string (email)".data true,
       FieldInfo.mk "password".data "string (password)".data true]) :
    (if hasSub "req.body".data line then
      match findBody line with
      | some inner =>
        let fieldsList := parseFields inner
        (some (List.intercalate ", ".data fieldsList),
         fieldsList.map (fun f =>
           ({ name := f, type := inferFieldType f (line :: rest) 0,
              required := true } : FieldInfo)))
      | none => (rbT, rbF)
     else (rbT, rbF)).2 = [] ∨
    (if hasSub "req.body".data line then
      match findBody line with
      | some inner =>
        let fieldsList := parseFields inner
        (some (List.intercalate ", ".data fieldsList),
         fieldsList.map (fun f =>
           ({ name := f, type := inferFieldType f (line :: rest) 0,
              required := true } : FieldInfo)))
      | none => (rbT, rbF)
     else (rbT, rbF)).2 =
      [FieldInfo.mk "email".data "string (email)".data true,
       FieldInfo.mk "password".data "string (password)".data true] := by
  by_cases hrb : hasSub "req.body".data line = true
  · rw [if_pos hrb]
    cases hfb : findBody line with
    | none => exact hf
    | some inner =>
      rw [hfb] at h0
      rcases h0 with h0 | h0
      · simp at h0
      · simp only [Option.map_some] at h0
        have hparse : parseFields inner = ["email".data, "password".data] :=
          Option.some.inj h0
        dsimp only
        rw [hparse]
        right
        simp only [List.map_cons, List.map_nil]
        rw [inferFieldType_email, inferFieldType_password]
  · rw [if_neg hrb]
    exact hf

theorem analyzeLoop_scenario_inv :
    ∀ (lines cands : List (List Char)) (inM : Bool) (brace : Int)
      (codes : List Nat) (rbT : Option (List Char)) (rbF : List FieldInfo),
      (∀ line ∈ lines, findStatus line = none ∨ findStatus line = some 200) →
      (∀ line ∈ lines, (findBody line).map parseFields = none ∨
        (findBody line).map parseFields = some ["email".data, "password".data]) →
      (codes = [] ∨ codes = [200]) →
      (rbF = [] ∨ rbF =
        [FieldInfo.mk "email".data "string (email)".data true,
         FieldInfo.mk "password".data "string (password)".data true]) →
      ((analyzeLoop lines cands inM brace codes rbT rbF).1 = [] ∨
        (analyzeLoop lines cands inM brace codes rbT rbF).1 = [200]) ∧
      ((analyzeLoop lines cands inM brace codes rbT rbF).2.2 = [] ∨
        (analyzeLoop lines cands inM brace codes rbT rbF).2.2 =
          [FieldInfo.mk "email".data "string (email)".data true,
           FieldInfo.mk "password".data "string (password)".data true]) := by
  intro lines
  induction lines with
  | nil =>
    intro cands inM brace codes rbT rbF hst hbd hc hf
    exact ⟨hc, hf⟩
  | cons line rest ih =>
    intro cands inM brace codes rbT rbF hst hbd hc hf
    have hst1 := hst line (List.mem_cons_self _ _)
    have hbd1 := hbd line (List.mem_cons_self _ _)
    have hstR : ∀ l ∈ rest, findStatus l = none ∨ findStatus l = some 200 :=
      fun l hl => hst l (List.mem_cons_of_mem _ hl)
    have hbdR : ∀ l ∈ rest, (findBody l).map parseFields = none ∨
        (findBody l).map parseFields = some ["email".data, "password".data] :=
      fun l hl => hbd l (List.mem_cons_of_mem _ hl)
    simp only [analyzeLoop]
    cases hms : methodStartLine line cands with
    | false =>
      rw [if_neg Bool.false_ne_true]
      cases inM with
      | false =>
        rw [if_neg Bool.false_ne_true]
        exact ih cands _ _ _ _ _ hstR hbdR hc hf
      | true =>
        rw [if_pos rfl]
        split
        · exact ⟨statusStep_inv codes hst1 hc, bodyStep_inv rest rbT rbF hbd1 hf⟩
        · exact ih cands _ _ _ _ _ hstR hbdR (statusStep_inv codes hst1 hc)
            (bodyStep_inv rest rbT rbF hbd1 hf)
    | true =>
      rw [if_pos rfl, if_pos rfl]
      split
      · exact ⟨statusStep_inv codes hst1 hc, bodyStep_inv rest rbT rbF hbd1 hf⟩
      · exact ih cands _ _ _ _ _ hstR hbdR (statusStep_inv codes hst1 hc)
          (bodyStep_inv rest rbT rbF hbd1 hf)

/-- C7 (amended): for every handler text all of whose lines carry no status
emission other than `res.status(200)` and no request-body destructuring
other than one parsing to `email, password`, the analysis reports the
status-code list exactly `[200]` — when no emission is observed at all the
default `[200]` of part_007 line 1129 applies, and a lone 200 emission is
recorded once — and the request-body descriptor list is either empty (no
destructuring line fell inside the matched method body) or exactly the two
required fields `email : string (email)` and `password : string (password)`.
The universal form of the original claim fails because a body may also emit
other status codes. -/
theorem analyzeControllerMethod_scenario (c m : List Char)
    (hst : ∀ line ∈ splitLines c, findStatus line = none ∨ findStatus line = some 200)
    (hbd : ∀ line ∈ splitLines c, (findBody line).map parseFields = none ∨
      (findBody line).map parseFields = some ["email".data, "password".data]) :
    (analyzeControllerMethod c m).statusCodes = [200] ∧
    ((analyzeControllerMethod c m).requestBodyFields = [] ∨
      (analyzeControllerMethod c m).requestBodyFields =
        [FieldInfo.mk "email".data "string (email)".data true,
         FieldInfo.mk "password".data "string (password)".data true]) := by
  have hinv := fun cands => analyzeLoop_scenario_inv (splitLines c) cands false 0 [] none []
    hst hbd (Or.inl rfl) (Or.inl rfl)
  rw [analyzeControllerMethod]
  dsimp only
  constructor
  · rcases (hinv _).1 with h | h <;> rw [h] <;> decide
  · exact (hinv _).2

/-- C7 counterexample: a handler body that satisfies the claim's premise —
it contains the line `const \x7b email, password \x7d = req.body;` and a
`res.status(200).json(...)` emission — but also emits `res.status(404)`
yields the status-code list `[200, 404]`, not `\x7b200\x7d`. -/
theorem analyzeControllerMethod_extra_status :
    hasSub "const \x7b email, password \x7d = req.body;".data
      "login = async (req, res) => \x7b\nconst \x7b email, password \x7d = req.body;\nres.status(200).json(u);\nres.status(404).json(v);\n\x7d".data = true ∧
    hasSub "res.status(200).json".data
      "login = async (req, res) => \x7b\nconst \x7b email, password \x7d = req.body;\nres.status(200).json(u);\nres.status(404).json(v);\n\x7d".data = true ∧
    (analyzeControllerMethod
      "login = async (req, res) => \x7b\nconst \x7b email, password \x7d = req.body;\nres.status(200).json(u);\nres.status(404).json(v);\n\x7d".data
      "login".data).statusCodes = [200, 404] := by decide

theorem analyzeControllerMethod_scenario_witness :
    (∀ line ∈ splitLines "login = async (req, res) => \x7b\nconst \x7b email, password \x7d = req.body;\nres.status(200).json(u);\n\x7d".data,
      findStatus line = none ∨ findStatus line = some 200) ∧
    (∀ line ∈ splitLines "login = async (req, res) => \x7b\nconst \x7b email, password \x7d = req.body;\nres.status(200).json(u);\n\x7d".data,
      (findBody line).map parseFields = none ∨
        (findBody line).map parseFields = some ["email".data, "password".data]) ∧
    ((analyzeControllerMethod
        "login = async (req, res) => \x7b\nconst \x7b email, password \x7d = req.body;\nres.status(200).json(u);\n\x7d".data
        "login".data).statusCodes = [200] ∧
      ((analyzeControllerMethod
        "login = async (req, res) => \x7b\nconst \x7b email, password \x7d = req.body;\nres.status(200).json(u);\n\x7d".data
        "login".data).requestBodyFields = [] ∨
       (analyzeControllerMethod
        "login = async (req, res) => \x7b\nconst \x7b email, password \x7d = req.body;\nres.status(200).json(u);\n\x7d".data
        "login".data).requestBodyFields =
        [FieldInfo.mk "email".data "string (email)".data true,
         FieldInfo.mk "password".data "string (password)".data true])) ∧
    (analyzeControllerMethod
        "login = async (req, res) => \x7b\nconst \x7b email, password \x7d = req.body;\nres.status(200).json(u);\n\x7d".data
        "login".data).requestBodyFields =
      [FieldInfo.mk "email".data "string (email)".data true,
       FieldInfo.mk "password".data "string (password)".data true] :=
  ⟨by decide, by decide,
    analyzeControllerMethod_scenario _ _ (by decide) (by decide), by decide⟩
